import Mathlib

/-!
A verification development for the disk-resident B-tree engine in `sbd2.py`.

The embedding models the index file as a page map from node page id to
the node pickled at offset `id * 4096` (`_write_node` / `_read_node` use
`'r+b'`, whose seek is honoured), and the data file at byte granularity:
a map from byte offset to the pickle frame starting there plus the
current end of file.  That granularity matters because `insert` writes
records through `open(..., 'ab')`, whose seek is ignored — frames are
appended at end of file, so `_read_record`'s seek to `addr * 1024` finds
a frame only for the very first record (or a slot later rewritten by
`update`'s `_write_record`) and raises everywhere else.  The free-page
pool is modelled together with its on-disk copy in the `.free` side
file: `_free_page_addr` saves after appending, `_get_new_page_addr` pops
without saving, `_init_files` reloads the file on reopen.

Every operation is translated line by line from the Python source;
Python exceptions (IndexError on list indexing, `list.index` on a
missing element, `list.pop` on an empty list, `pickle.load` at an offset
holding no frame, arithmetic on `None`) are modelled as an `Option.none`
outcome, with the state accumulated up to the raising statement
preserved, exactly as the interactive driver does when it catches the
exception and keeps using the tree.  Recursion is bounded by an explicit
fuel parameter; running out of fuel is also a `none` outcome.
Read/write counters mirror the global `Stats` object.
-/

/-- Python `list.insert(i, v)`: inserts before position `i`, appending when
`i` is past the end. -/
def pyInsertAt : List α → Nat → α → List α
  | xs, 0, v => v :: xs
  | [], _ + 1, v => [v]
  | x :: xs, n + 1, v => x :: pyInsertAt xs n v

/-- Python `list.pop(i)` for an in-range `i` (callers check the range via
`List.get?` first, since Python raises IndexError out of range). -/
def pyRemoveAt : List α → Nat → List α
  | [], _ => []
  | _ :: xs, 0 => xs
  | x :: xs, n + 1 => x :: pyRemoveAt xs n

/-- Python `l[i] = v` for an in-range `i`. -/
def pySetAt : List α → Nat → α → List α
  | [], _, _ => []
  | _ :: xs, 0, v => v :: xs
  | x :: xs, n + 1, v => x :: pySetAt xs n v

/-- Python `list.pop()`: removes and returns the last element, `none` when
the list is empty (Python raises IndexError there). -/
def pyPopLast : List α → Option (List α × α)
  | [] => none
  | [x] => some ([], x)
  | x :: y :: xs =>
    match pyPopLast (y :: xs) with
    | some (rest, l) => some (x :: rest, l)
    | none => none

/-- Python `list.pop(0)`. -/
def pyPopHead : List α → Option (α × List α)
  | [] => none
  | x :: xs => some (x, xs)

/-- Python `list.index(v)`: position of the first occurrence, `none` when
absent (Python raises ValueError there). -/
def pyIndexOf [DecidableEq α] : List α → α → Option Nat
  | [], _ => none
  | x :: xs, v =>
    if x = v then some 0
    else match pyIndexOf xs v with
      | some n => some (n + 1)
      | none => none

/-- `Record` from `sbd2.py`: a key and a list of numbers. -/
structure Record where
  key : Int
  numbers : List Int
deriving DecidableEq, Repr

/-- `Record.get_sum`. -/
def Record.get_sum (r : Record) : Int := r.numbers.sum

/-- `BTreeNode` from `sbd2.py`.  `addresses` holds data-file page ids; the
element type is `Option Nat` because `_compensate_with_left` /
`_compensate_with_right` place a literal `None` into an address list. -/
structure BTreeNode where
  keys : List Int
  addresses : List (Option Nat)
  children : List Nat
  is_leaf : Bool
  parent_addr : Option Nat
deriving DecidableEq, Repr

/-- A backing file abstracted as a page map: an association list from page
id to the object last pickled into that page slot. -/
def PageMap (α : Type) : Type := List (Nat × α)

instance [DecidableEq α] : DecidableEq (PageMap α) :=
  inferInstanceAs (DecidableEq (List (Nat × α)))

/-- Read the object at a page id; `none` when the slot was never written
(Python's `pickle.load` at such an offset raises). -/
def PageMap.find : PageMap α → Nat → Option α
  | [], _ => none
  | (k, v) :: rest, a => if k = a then some v else PageMap.find rest a

/-- Overwrite the slot at a page id (adding it when absent). -/
def PageMap.write : PageMap α → Nat → α → PageMap α
  | [], a, v => [(a, v)]
  | (k, w) :: rest, a, v =>
    if k = a then (a, v) :: rest else (k, w) :: PageMap.write rest a v

/-- A concrete model of `len(pickle.dumps(record))`: a fixed frame
overhead plus at least one byte per payload number.  The exact constants
are immaterial: every theorem below depends only on coarse comparisons of
accumulated sizes against the 1024-byte slot grid of
`_read_record`/`_write_record` (`f.seek(addr * 1024)`), and those
comparisons hold for the real pickle sizes as well (a handful of small
records totals a few hundred bytes, far below the next slot boundary,
while a record with more numbers than bytes in a slot cannot fit it). -/
def pickledSize (r : Record) : Nat := 40 + r.numbers.length

/-- The whole state owned by a `BTree` object: its configuration, the two
backing files, the free-page pool together with its on-disk copy in the
`.free` side file, and the global `Stats` counters.  The index file is a
map from node page id to the node pickled at byte offset `id * 4096`
(node writes go through `'r+b'`, whose seek is honoured).  The data file
is kept at byte granularity: `data` maps a byte offset to the record
whose pickle frame starts exactly there, and `dataEnd` is the current
end-of-file — necessary because `insert` opens the data file in `'ab'`
append mode, where the seek to `record_addr * 1024` is ignored and the
frame lands at `dataEnd` instead. -/
structure BTreeState where
  d : Nat
  root_addr : Option Nat
  next_page_addr : Nat
  free_pages : List (Option Nat)
  free_file : List (Option Nat)
  index : PageMap BTreeNode
  data : PageMap Record
  dataEnd : Nat
  reads : Nat
  writes : Nat
deriving DecidableEq

namespace BTree

/-- `self.max_keys = 2 * d`. -/
def maxKeys (s : BTreeState) : Nat := 2 * s.d

/-- `self.min_keys = d`. -/
def minKeys (s : BTreeState) : Nat := s.d

/-- `BTree.__init__` + `_init_files` on a fresh directory: empty files,
empty free pool saved once (one counted write), no root, next page id 0. -/
def initState (d : Nat) : BTreeState :=
  { d := d, root_addr := none, next_page_addr := 0, free_pages := [],
    free_file := [], index := [], data := [], dataEnd := 0,
    reads := 0, writes := 1 }

/-- `BTree.__init__` + `_init_files` when the three files already exist:
the in-memory pool is loaded back from the `.free` file (one counted
read) — that file holds the pool as of the last `_save_free_pages`, since
`_get_new_page_addr` pops without saving — the index and data files keep
their bytes, and `root_addr` / `next_page_addr` are plain attributes
re-initialised to `None` and `0`. -/
def restart (s : BTreeState) : BTreeState :=
  { s with
    root_addr := none
    next_page_addr := 0
    free_pages := s.free_file
    reads := s.reads + 1 }

/-- `_get_new_page_addr`: pop the last entry of the free pool when it is
non-empty, otherwise mint `next_page_addr` and bump the counter.  The pop
is not followed by `_save_free_pages`, so the `.free` file is left
untouched.  The returned value is `Option Nat` because the pool stores
whatever was passed to `_free_page_addr`, which can be Python `None`. -/
def getNewPageAddr (s : BTreeState) : BTreeState × Option Nat :=
  match pyPopLast s.free_pages with
  | some (rest, a) => ({ s with free_pages := rest }, a)
  | none =>
    ({ s with next_page_addr := s.next_page_addr + 1 }, some s.next_page_addr)

/-- `_free_page_addr`: append to the pool and save it — `_save_free_pages`
rewrites the `.free` file with the whole new pool and counts one write. -/
def freePageAddr (s : BTreeState) (addr : Option Nat) : BTreeState :=
  { s with
    free_pages := s.free_pages ++ [addr]
    free_file := s.free_pages ++ [addr]
    writes := s.writes + 1 }

/-- `_write_node`: overwrite the 4096-byte slot `addr` of the index file. -/
def writeNode (s : BTreeState) (addr : Nat) (node : BTreeNode) : BTreeState :=
  { s with index := s.index.write addr node, writes := s.writes + 1 }

/-- `_read_node`: load the node at slot `addr`; a never-written slot makes
`pickle.load` raise, modelled as `none` (the read counter is bumped only
after a successful load, as in the source). -/
def readNode (s : BTreeState) (addr : Nat) : BTreeState × Option BTreeNode :=
  match s.index.find addr with
  | some node => ({ s with reads := s.reads + 1 }, some node)
  | none => (s, none)

/-- Drop every pickle frame whose byte range intersects `[lo, hi)`: those
bytes are about to be overwritten, so such a frame no longer deserialises. -/
def clobberFrames (frames : PageMap Record) (lo hi : Nat) : PageMap Record :=
  frames.filter (fun p => decide (p.1 + pickledSize p.2 ≤ lo) || decide (hi ≤ p.1))

/-- `_write_record` (used by `update`): the data file is opened `'r+b'`,
so the seek is honoured and the frame really lands at byte offset
`addr * 1024`, replacing whatever frames its bytes overlap and extending
the file when it writes past the old end. -/
def writeRecord (s : BTreeState) (addr : Nat) (r : Record) : BTreeState :=
  { s with
    data := (clobberFrames s.data (addr * 1024) (addr * 1024 + pickledSize r)).write
      (addr * 1024) r
    dataEnd := max s.dataEnd (addr * 1024 + pickledSize r)
    writes := s.writes + 1 }

/-- The inline record write of `insert` (lines 173-176): the data file is
opened with `open(self.filename, 'ab')`, and in append mode the
`f.seek(record_addr * 1024)` is ignored — the pickle frame is appended at
the current end of file, wherever that is. -/
def appendRecord (s : BTreeState) (r : Record) : BTreeState :=
  { s with
    data := s.data.write s.dataEnd r
    dataEnd := s.dataEnd + pickledSize r
    writes := s.writes + 1 }

/-- `_read_record`: seek to `addr * 1024` and `pickle.load`.  This
returns a record only when a pickle frame starts exactly at that byte
offset; seeking past the end of file or into the middle of a frame makes
`pickle.load` raise (EOFError / UnpicklingError), modelled as `none`. -/
def readRecord (s : BTreeState) (addr : Nat) : BTreeState × Option Record :=
  match s.data.find (addr * 1024) with
  | some r => ({ s with reads := s.reads + 1 }, some r)
  | none => (s, none)

/-- The scan `i = 0; while i < len(keys) and key > keys[i]: i += 1` used by
`_search_recursive`, `_insert_recursive`, `_delete_recursive` and
`update`. -/
def findPos (keys : List Int) (key : Int) : Nat :=
  match keys with
  | [] => 0
  | k :: rest => if key > k then findPos rest key + 1 else 0

/-- `_search_recursive`.  The second component is `none` when the Python
code would raise, `some none` when it returns `None`, and `some (some r)`
when it returns record `r`. -/
def searchRec : Nat → BTreeState → Nat → Int → BTreeState × Option (Option Record)
  | 0, s, _, _ => (s, none)
  | fuel + 1, s, node_addr, key =>
    match readNode s node_addr with
    | (s1, none) => (s1, none)
    | (s1, some node) =>
      let i := findPos node.keys key
      if node.keys.get? i = some key then
        match node.addresses.get? i with
        | some (some record_addr) =>
          match readRecord s1 record_addr with
          | (s2, none) => (s2, none)
          | (s2, some r) => (s2, some (some r))
        | some none => (s1, none)
        | none => (s1, none)
      else if node.is_leaf then
        (s1, some none)
      else
        match node.children.get? i with
        | some c => searchRec fuel s1 c key
        | none => (s1, none)

/-- `BTree.search`. -/
def search (fuel : Nat) (s : BTreeState) (key : Int) :
    BTreeState × Option (Option Record) :=
  match s.root_addr with
  | none => (s, some none)
  | some root => searchRec fuel s root key

/-- `_compensate_with_left`.  Note two facts taken directly from the
source: the separating parent key enters the merged address run as a
literal `None` (line `all_addrs = left.addresses + [None] + node.addresses`),
the lower half of that run is written back to the left sibling unfiltered,
and `parent.addresses[node_idx - 1]` is never reassigned even though
`parent.keys[node_idx - 1]` is. -/
def compensateWithLeft (s : BTreeState)
    (node_addr left_addr parent_addr node_idx : Nat) : BTreeState × Option Unit :=
  match readNode s node_addr with
  | (s1, none) => (s1, none)
  | (s1, some node) =>
    match readNode s1 left_addr with
    | (s2, none) => (s2, none)
    | (s2, some left) =>
      match readNode s2 parent_addr with
      | (s3, none) => (s3, none)
      | (s3, some parent) =>
        match parent.keys.get? (node_idx - 1) with
        | none => (s3, none)
        | some sep =>
          let all_keys := left.keys ++ [sep] ++ node.keys
          let all_addrs : List (Option Nat) := left.addresses ++ [none] ++ node.addresses
          let all_children := left.children ++ node.children
          let mid := all_keys.length / 2
          match all_keys.get? mid with
          | none => (s3, none)
          | some midk =>
            let left2 := { left with
              keys := all_keys.take mid,
              addresses := all_addrs.take mid,
              children := if node.is_leaf then left.children else all_children.take (mid + 1) }
            let parent2 := { parent with keys := pySetAt parent.keys (node_idx - 1) midk }
            let node2 := { node with
              keys := all_keys.drop (mid + 1),
              addresses := (all_addrs.drop (mid + 1)).filter (fun a => a.isSome),
              children := if node.is_leaf then node.children else all_children.drop (mid + 1) }
            let s4 := writeNode s3 left_addr left2
            let s5 := writeNode s4 node_addr node2
            (writeNode s5 parent_addr parent2, some ())

/-- `_compensate_with_right`, symmetric to `_compensate_with_left`; here
the lower half stays in the node and the filtered upper half goes to the
right sibling, and `parent.addresses[node_idx]` is never reassigned. -/
def compensateWithRight (s : BTreeState)
    (node_addr right_addr parent_addr node_idx : Nat) : BTreeState × Option Unit :=
  match readNode s node_addr with
  | (s1, none) => (s1, none)
  | (s1, some node) =>
    match readNode s1 right_addr with
    | (s2, none) => (s2, none)
    | (s2, some right) =>
      match readNode s2 parent_addr with
      | (s3, none) => (s3, none)
      | (s3, some parent) =>
        match parent.keys.get? node_idx with
        | none => (s3, none)
        | some sep =>
          let all_keys := node.keys ++ [sep] ++ right.keys
          let all_addrs : List (Option Nat) := node.addresses ++ [none] ++ right.addresses
          let all_children := node.children ++ right.children
          let mid := all_keys.length / 2
          match all_keys.get? mid with
          | none => (s3, none)
          | some midk =>
            let node2 := { node with
              keys := all_keys.take mid,
              addresses := all_addrs.take mid,
              children := if node.is_leaf then node.children else all_children.take (mid + 1) }
            let parent2 := { parent with keys := pySetAt parent.keys node_idx midk }
            let right2 := { right with
              keys := all_keys.drop (mid + 1),
              addresses := (all_addrs.drop (mid + 1)).filter (fun a => a.isSome),
              children := if node.is_leaf then right.children else all_children.drop (mid + 1) }
            let s4 := writeNode s3 node_addr node2
            let s5 := writeNode s4 right_addr right2
            (writeNode s5 parent_addr parent2, some ())

/-- The right-sibling half of `_try_compensation` (lines 248-255), entered
whenever the left-sibling branch did not return. -/
def tryCompRight (s : BTreeState) (node_addr parent_addr node_idx : Nat)
    (parent : BTreeNode) : BTreeState × Option Bool :=
  if node_idx + 1 < parent.children.length then
    match parent.children.get? (node_idx + 1) with
    | none => (s, none)
    | some right_addr =>
      match readNode s right_addr with
      | (s1, none) => (s1, none)
      | (s1, some right) =>
        if right.keys.length < maxKeys s1 then
          match compensateWithRight s1 node_addr right_addr parent_addr node_idx with
          | (s2, none) => (s2, none)
          | (s2, some _) => (s2, some true)
        else (s1, some false)
  else (s, some false)

/-- `_try_compensation`. -/
def tryCompensation (s : BTreeState) (node_addr : Nat) : BTreeState × Option Bool :=
  match readNode s node_addr with
  | (s1, none) => (s1, none)
  | (s1, some node) =>
    match node.parent_addr with
    | none => (s1, some false)
    | some pa =>
      match readNode s1 pa with
      | (s2, none) => (s2, none)
      | (s2, some parent) =>
        match pyIndexOf parent.children node_addr with
        | none => (s2, none)
        | some idx =>
          if 0 < idx then
            match parent.children.get? (idx - 1) with
            | none => (s2, none)
            | some left_addr =>
              match readNode s2 left_addr with
              | (s3, none) => (s3, none)
              | (s3, some left) =>
                if left.keys.length < maxKeys s3 then
                  match compensateWithLeft s3 node_addr left_addr pa idx with
                  | (s4, none) => (s4, none)
                  | (s4, some _) => (s4, some true)
                else tryCompRight s3 node_addr pa idx parent
          else tryCompRight s2 node_addr pa idx parent

/-- The two mutually recursive overflow-repair procedures, fused into one
fuel-indexed dispatcher so that the recursion is structural on the fuel. -/
inductive OvfCall where
  | hovf (node_addr : Nat)
  | splt (node_addr : Nat)

/-- `_handle_overflow` (the `.hovf` arm) and `_split_node` (the `.splt`
arm).  In `_split_node`, `mid_key` is read from `node.keys` before the
truncation, but `new_root.addresses.append(node.addresses[mid])` (root
case, line 354) and `parent.addresses.insert(idx, node.addresses[mid])`
(line 373) read the already-truncated address list, whose length is
exactly `mid` — in Python that raises IndexError after the two
`_write_node` calls of lines 346-347 have gone to disk. -/
def ovfRun : Nat → BTreeState → OvfCall → BTreeState × Option Unit
  | 0, s, _ => (s, none)
  | fuel + 1, s, .hovf node_addr =>
    match readNode s node_addr with
    | (s1, none) => (s1, none)
    | (s1, some _) =>
      match tryCompensation s1 node_addr with
      | (s2, none) => (s2, none)
      | (s2, some true) => (s2, some ())
      | (s2, some false) => ovfRun fuel s2 (.splt node_addr)
  | fuel + 1, s, .splt node_addr =>
    match readNode s node_addr with
    | (s1, none) => (s1, none)
    | (s1, some node) =>
      let mid := node.keys.length / 2
      match node.keys.get? mid with
      | none => (s1, none)
      | some mid_key =>
        let new_node : BTreeNode :=
          { keys := node.keys.drop (mid + 1),
            addresses := node.addresses.drop (mid + 1),
            children := if node.is_leaf then [] else node.children.drop (mid + 1),
            is_leaf := node.is_leaf, parent_addr := none }
        let node2 := { node with
          keys := node.keys.take mid,
          addresses := node.addresses.take mid,
          children := if node.is_leaf then node.children else node.children.take (mid + 1) }
        match getNewPageAddr s1 with
        | (s2, none) => (s2, none)
        | (s2, some new_node_addr) =>
          let s3 := writeNode s2 new_node_addr new_node
          let s4 := writeNode s3 node_addr node2
          match node.parent_addr with
          | none =>
            match node2.addresses.get? mid with
            | none => (s4, none)
            | some a =>
              match getNewPageAddr s4 with
              | (s5, none) => ({ s5 with root_addr := none }, none)
              | (s5, some new_root_addr) =>
                let new_root : BTreeNode :=
                  { keys := [mid_key], addresses := [a],
                    children := [node_addr, new_node_addr],
                    is_leaf := false, parent_addr := none }
                let node3 := { node2 with parent_addr := some new_root_addr }
                let new_node3 := { new_node with parent_addr := some new_root_addr }
                let s6 := { s5 with root_addr := some new_root_addr }
                let s7 := writeNode s6 new_root_addr new_root
                let s8 := writeNode s7 node_addr node3
                (writeNode s8 new_node_addr new_node3, some ())
          | some pa =>
            match readNode s4 pa with
            | (s5, none) => (s5, none)
            | (s5, some parent) =>
              match pyIndexOf parent.children node_addr with
              | none => (s5, none)
              | some idx =>
                match node2.addresses.get? mid with
                | none => (s5, none)
                | some a =>
                  let parent2 := { parent with
                    keys := pyInsertAt parent.keys idx mid_key,
                    addresses := pyInsertAt parent.addresses idx a,
                    children := pyInsertAt parent.children (idx + 1) new_node_addr }
                  let new_node3 := { new_node with parent_addr := some pa }
                  let s6 := writeNode s5 pa parent2
                  let s7 := writeNode s6 new_node_addr new_node3
                  if maxKeys s7 < parent2.keys.length then ovfRun fuel s7 (.hovf pa)
                  else (s7, some ())

/-- `_handle_overflow`. -/
def handleOverflow (fuel : Nat) (s : BTreeState) (node_addr : Nat) :
    BTreeState × Option Unit :=
  ovfRun fuel s (.hovf node_addr)

/-- `_split_node`. -/
def splitNode (fuel : Nat) (s : BTreeState) (node_addr : Nat) :
    BTreeState × Option Unit :=
  ovfRun fuel s (.splt node_addr)

/-- `_insert_recursive`. -/
def insertRec : Nat → BTreeState → Nat → Int → Nat → BTreeState × Option Unit
  | 0, s, _, _, _ => (s, none)
  | fuel + 1, s, node_addr, key, record_addr =>
    match readNode s node_addr with
    | (s1, none) => (s1, none)
    | (s1, some node) =>
      let i := findPos node.keys key
      if node.is_leaf then
        let node2 := { node with
          keys := pyInsertAt node.keys i key,
          addresses := pyInsertAt node.addresses i (some record_addr) }
        let s2 := writeNode s1 node_addr node2
        if maxKeys s2 < node2.keys.length then handleOverflow fuel s2 node_addr
        else (s2, some ())
      else
        match node.children.get? i with
        | none => (s1, none)
        | some c => insertRec fuel s1 c key record_addr

/-- `BTree.insert`.  The duplicate check is a full `search`; the record is
then written to the data file with the append-mode write of lines
173-176, which ignores the seek to `record_addr * 1024` and appends the
pickle at end of file — so every record after the first is unreadable at
the slot the index will point to. -/
def insert (fuel : Nat) (s : BTreeState) (record : Record) :
    BTreeState × Option Bool :=
  match search fuel s record.key with
  | (s1, none) => (s1, none)
  | (s1, some (some _)) => (s1, some false)
  | (s1, some none) =>
    match getNewPageAddr s1 with
    | (s2, none) => (s2, none)
    | (s2, some record_addr) =>
      let s3 := appendRecord s2 record
      match s3.root_addr with
      | none =>
        let root : BTreeNode :=
          { keys := [record.key], addresses := [some record_addr],
            children := [], is_leaf := true, parent_addr := none }
        match getNewPageAddr s3 with
        | (s4, none) => ({ s4 with root_addr := none }, none)
        | (s4, some ra) =>
          (writeNode { s4 with root_addr := some ra } ra root, some true)
      | some root_addr =>
        match insertRec fuel s3 root_addr record.key record_addr with
        | (s4, none) => (s4, none)
        | (s4, some _) => (s4, some true)

/-- `_get_predecessor`: the rightmost key/address pair of the subtree. -/
def getPredecessor : Nat → BTreeState → Nat → BTreeState × Option (Int × Option Nat)
  | 0, s, _ => (s, none)
  | fuel + 1, s, node_addr =>
    match readNode s node_addr with
    | (s1, none) => (s1, none)
    | (s1, some node) =>
      if node.is_leaf then
        match node.keys.getLast?, node.addresses.getLast? with
        | some k, some a => (s1, some (k, a))
        | some _, none => (s1, none)
        | none, _ => (s1, none)
      else
        match node.children.getLast? with
        | some c => getPredecessor fuel s1 c
        | none => (s1, none)

/-- `_borrow_from_left`: rotate the parent separator down into the node
and the left sibling's last key/address up into the parent. -/
def borrowFromLeft (s : BTreeState)
    (node_addr left_addr parent_addr node_idx : Nat) : BTreeState × Option Unit :=
  match readNode s node_addr with
  | (s1, none) => (s1, none)
  | (s1, some node) =>
    match readNode s1 left_addr with
    | (s2, none) => (s2, none)
    | (s2, some left) =>
      match readNode s2 parent_addr with
      | (s3, none) => (s3, none)
      | (s3, some parent) =>
        match parent.keys.get? (node_idx - 1) with
        | none => (s3, none)
        | some pk =>
          match parent.addresses.get? (node_idx - 1) with
          | none => (s3, none)
          | some pav =>
            let chres : Option (List Nat × List Nat) :=
              if node.is_leaf then some (left.children, node.children)
              else match pyPopLast left.children with
                | some (rest, c) => some (rest, c :: node.children)
                | none => none
            match chres with
            | none => (s3, none)
            | some (lch, nch) =>
              match pyPopLast left.keys with
              | none => (s3, none)
              | some (lkrest, lk) =>
                match pyPopLast left.addresses with
                | none => (s3, none)
                | some (larest, la) =>
                  let node2 := { node with
                    keys := pk :: node.keys, addresses := pav :: node.addresses,
                    children := nch }
                  let left2 := { left with
                    keys := lkrest, addresses := larest, children := lch }
                  let parent2 := { parent with
                    keys := pySetAt parent.keys (node_idx - 1) lk,
                    addresses := pySetAt parent.addresses (node_idx - 1) la }
                  let s4 := writeNode s3 node_addr node2
                  let s5 := writeNode s4 left_addr left2
                  (writeNode s5 parent_addr parent2, some ())

/-- `_borrow_from_right`, symmetric: separator appended to the node, the
right sibling's first key/address moved up into the parent. -/
def borrowFromRight (s : BTreeState)
    (node_addr right_addr parent_addr node_idx : Nat) : BTreeState × Option Unit :=
  match readNode s node_addr with
  | (s1, none) => (s1, none)
  | (s1, some node) =>
    match readNode s1 right_addr with
    | (s2, none) => (s2, none)
    | (s2, some right) =>
      match readNode s2 parent_addr with
      | (s3, none) => (s3, none)
      | (s3, some parent) =>
        match parent.keys.get? node_idx with
        | none => (s3, none)
        | some pk =>
          match parent.addresses.get? node_idx with
          | none => (s3, none)
          | some pav =>
            let chres : Option (List Nat × List Nat) :=
              if node.is_leaf then some (right.children, node.children)
              else match pyPopHead right.children with
                | some (c, rest) => some (rest, node.children ++ [c])
                | none => none
            match chres with
            | none => (s3, none)
            | some (rch, nch) =>
              match pyPopHead right.keys with
              | none => (s3, none)
              | some (rk, rkrest) =>
                match pyPopHead right.addresses with
                | none => (s3, none)
                | some (ra, rarest) =>
                  let node2 := { node with
                    keys := node.keys ++ [pk], addresses := node.addresses ++ [pav],
                    children := nch }
                  let right2 := { right with
                    keys := rkrest, addresses := rarest, children := rch }
                  let parent2 := { parent with
                    keys := pySetAt parent.keys node_idx rk,
                    addresses := pySetAt parent.addresses node_idx ra }
                  let s4 := writeNode s3 node_addr node2
                  let s5 := writeNode s4 right_addr right2
                  (writeNode s5 parent_addr parent2, some ())

/-- The two mutually recursive underflow-repair procedures, fused into a
fuel-indexed dispatcher (same device as `OvfCall`). -/
inductive UndCall where
  | hund (node_addr : Nat)
  | mrg (left_addr right_addr parent_addr parent_idx : Nat)

/-- The left-borrow attempt of `_handle_underflow` (lines 460-465).
The outer `Option` is a raise; the inner one is `some ()` when the borrow
happened and `none` when this branch fell through. -/
def undLeftBorrow (s : BTreeState) (node_addr parent_addr idx : Nat)
    (parent : BTreeNode) : BTreeState × Option (Option Unit) :=
  if 0 < idx then
    match parent.children.get? (idx - 1) with
    | none => (s, none)
    | some left_addr =>
      match readNode s left_addr with
      | (s1, none) => (s1, none)
      | (s1, some left) =>
        if minKeys s1 < left.keys.length then
          match borrowFromLeft s1 node_addr left_addr parent_addr idx with
          | (s2, none) => (s2, none)
          | (s2, some _) => (s2, some (some ()))
        else (s1, some none)
  else (s, some none)

/-- The right-borrow attempt of `_handle_underflow` (lines 467-472). -/
def undRightBorrow (s : BTreeState) (node_addr parent_addr idx : Nat)
    (parent : BTreeNode) : BTreeState × Option (Option Unit) :=
  if idx + 1 < parent.children.length then
    match parent.children.get? (idx + 1) with
    | none => (s, none)
    | some right_addr =>
      match readNode s right_addr with
      | (s1, none) => (s1, none)
      | (s1, some right) =>
        if minKeys s1 < right.keys.length then
          match borrowFromRight s1 node_addr right_addr parent_addr idx with
          | (s2, none) => (s2, none)
          | (s2, some _) => (s2, some (some ()))
        else (s1, some none)
  else (s, some none)

/-- `_handle_underflow` (the `.hund` arm; a root node has no parent, so
`_read_node(None)` raises there) and `_merge_nodes` (the `.mrg` arm). -/
def undRun : Nat → BTreeState → UndCall → BTreeState × Option Unit
  | 0, s, _ => (s, none)
  | fuel + 1, s, .hund node_addr =>
    match readNode s node_addr with
    | (s1, none) => (s1, none)
    | (s1, some node) =>
      match node.parent_addr with
      | none => (s1, none)
      | some pa =>
        match readNode s1 pa with
        | (s2, none) => (s2, none)
        | (s2, some parent) =>
          match pyIndexOf parent.children node_addr with
          | none => (s2, none)
          | some idx =>
            match undLeftBorrow s2 node_addr pa idx parent with
            | (s3, none) => (s3, none)
            | (s3, some (some _)) => (s3, some ())
            | (s3, some none) =>
              match undRightBorrow s3 node_addr pa idx parent with
              | (s4, none) => (s4, none)
              | (s4, some (some _)) => (s4, some ())
              | (s4, some none) =>
                if 0 < idx then
                  match parent.children.get? (idx - 1) with
                  | none => (s4, none)
                  | some left_addr =>
                    undRun fuel s4 (.mrg left_addr node_addr pa (idx - 1))
                else
                  match parent.children.get? (idx + 1) with
                  | none => (s4, none)
                  | some right_addr =>
                    undRun fuel s4 (.mrg node_addr right_addr pa idx)
  | fuel + 1, s, .mrg left_addr right_addr parent_addr parent_idx =>
    match readNode s left_addr with
    | (s1, none) => (s1, none)
    | (s1, some left) =>
      match readNode s1 right_addr with
      | (s2, none) => (s2, none)
      | (s2, some right) =>
        match readNode s2 parent_addr with
        | (s3, none) => (s3, none)
        | (s3, some parent) =>
          match parent.keys.get? parent_idx with
          | none => (s3, none)
          | some pk =>
            match parent.addresses.get? parent_idx with
            | none => (s3, none)
            | some pav =>
              let left2 := { left with
                keys := left.keys ++ [pk] ++ right.keys,
                addresses := left.addresses ++ [pav] ++ right.addresses,
                children := if left.is_leaf then left.children
                            else left.children ++ right.children }
              match parent.children.get? (parent_idx + 1) with
              | none => (s3, none)
              | some _ =>
                let parent2 := { parent with
                  keys := pyRemoveAt parent.keys parent_idx,
                  addresses := pyRemoveAt parent.addresses parent_idx,
                  children := pyRemoveAt parent.children (parent_idx + 1) }
                let s4 := writeNode s3 left_addr left2
                let s5 := writeNode s4 parent_addr parent2
                let s6 := freePageAddr s5 (some right_addr)
                if s6.root_addr ≠ some parent_addr ∧ parent2.keys.length < minKeys s6 then
                  undRun fuel s6 (.hund parent_addr)
                else (s6, some ())

/-- `_handle_underflow`. -/
def handleUnderflow (fuel : Nat) (s : BTreeState) (node_addr : Nat) :
    BTreeState × Option Unit :=
  undRun fuel s (.hund node_addr)

/-- `_merge_nodes`. -/
def mergeNodes (fuel : Nat) (s : BTreeState)
    (left_addr right_addr parent_addr parent_idx : Nat) : BTreeState × Option Unit :=
  undRun fuel s (.mrg left_addr right_addr parent_addr parent_idx)

/-- `_delete_recursive`. -/
def deleteRec : Nat → BTreeState → Nat → Int → BTreeState × Option Bool
  | 0, s, _, _ => (s, none)
  | fuel + 1, s, node_addr, key =>
    match readNode s node_addr with
    | (s1, none) => (s1, none)
    | (s1, some node) =>
      let i := findPos node.keys key
      if node.keys.get? i = some key then
        if node.is_leaf then
          match node.addresses.get? i with
          | none => (s1, none)
          | some ra =>
            let s2 := freePageAddr s1 ra
            let node2 := { node with
              keys := pyRemoveAt node.keys i, addresses := pyRemoveAt node.addresses i }
            let s3 := writeNode s2 node_addr node2
            if s3.root_addr ≠ some node_addr ∧ node2.keys.length < minKeys s3 then
              match undRun fuel s3 (.hund node_addr) with
              | (s4, none) => (s4, none)
              | (s4, some _) => (s4, some true)
            else (s3, some true)
        else
          match node.children.get? i with
          | none => (s1, none)
          | some ci =>
            match getPredecessor fuel s1 ci with
            | (s2, none) => (s2, none)
            | (s2, some (pk, pav)) =>
              let node2 := { node with
                keys := pySetAt node.keys i pk, addresses := pySetAt node.addresses i pav }
              let s3 := writeNode s2 node_addr node2
              deleteRec fuel s3 ci pk
      else if node.is_leaf then
        (s1, some false)
      else
        match node.children.get? i with
        | none => (s1, none)
        | some c => deleteRec fuel s1 c key

/-- The root-shrink epilogue of `BTree.delete` (lines 392-398): after a
successful removal, re-read the root and, when it has become an empty
internal node, promote its only child and reclaim the old root page. -/
def deleteShrinkRoot (s1 : BTreeState) : BTreeState × Option Bool :=
  match s1.root_addr with
  | none => (s1, none)
  | some ra =>
    match readNode s1 ra with
    | (s2, none) => (s2, none)
    | (s2, some root) =>
      if root.keys.length = 0 ∧ root.is_leaf = false then
        match root.children.get? 0 with
        | none => (s2, none)
        | some c =>
          (freePageAddr { s2 with root_addr := some c } (some ra), some true)
      else (s2, some true)

/-- `BTree.delete`. -/
def delete (fuel : Nat) (s : BTreeState) (key : Int) : BTreeState × Option Bool :=
  match s.root_addr with
  | none => (s, some false)
  | some root_addr =>
    match deleteRec fuel s root_addr key with
    | (s1, none) => (s1, none)
    | (s1, some false) => (s1, some false)
    | (s1, some true) => deleteShrinkRoot s1

/-- The descent loop of `update` (lines 564-579). -/
def updLoop : Nat → BTreeState → Nat → Int → Record → BTreeState × Option Bool
  | 0, s, _, _, _ => (s, none)
  | fuel + 1, s, node_addr, key, rec2 =>
    match readNode s node_addr with
    | (s1, none) => (s1, none)
    | (s1, some node) =>
      let i := findPos node.keys key
      if node.keys.get? i = some key then
        match node.addresses.get? i with
        | some (some ra) => (writeRecord s1 ra rec2, some true)
        | some none => (s1, none)
        | none => (s1, none)
      else if node.is_leaf then
        (s1, some false)
      else
        match node.children.get? i with
        | none => (s1, none)
        | some c => updLoop fuel s1 c key rec2

/-- `BTree.update`: search first, then re-descend and overwrite the
record page in place. -/
def update (fuel : Nat) (s : BTreeState) (key : Int) (new_numbers : List Int) :
    BTreeState × Option Bool :=
  match search fuel s key with
  | (s1, none) => (s1, none)
  | (s1, some none) => (s1, some false)
  | (s1, some (some r)) =>
    let rec2 := { r with numbers := new_numbers }
    match s1.root_addr with
    | none => (s1, some false)
    | some root_addr => updLoop fuel s1 root_addr key rec2

/-- One public engine operation, as issued by the interactive driver. -/
inductive Op where
  | ins (fuel : Nat) (r : Record)
  | del (fuel : Nat) (k : Int)
  | upd (fuel : Nat) (k : Int) (ns : List Int)
  | srch (fuel : Nat) (k : Int)

/-- Run one operation and keep the resulting state, whether the call
returned normally or raised (the driver catches every exception and keeps
using the same tree, so post-raise states are reachable states). -/
def applyOp (s : BTreeState) : Op → BTreeState
  | .ins fuel r => (insert fuel s r).1
  | .del fuel k => (delete fuel s k).1
  | .upd fuel k ns => (update fuel s k ns).1
  | .srch fuel k => (search fuel s k).1

/-- Run a whole sequence of operations. -/
def execOps : BTreeState → List Op → BTreeState
  | s, [] => s
  | s, op :: rest => execOps (applyOp s op) rest

/-- Collect the page ids holding a live node or a live record: a worklist
walk from the given addresses, taking each node's id, its record
addresses, and recursing into its children. -/
def treeIdsAux (s : BTreeState) : Nat → List Nat → List Nat
  | 0, _ => []
  | _ + 1, [] => []
  | fuel + 1, addr :: rest =>
    match s.index.find addr with
    | none => addr :: treeIdsAux s fuel rest
    | some node =>
      addr :: (node.addresses.filterMap id ++ treeIdsAux s fuel (node.children ++ rest))

/-- The ids currently holding a live Node or a live Record: everything
reachable from the root. -/
def liveIds (s : BTreeState) (fuel : Nat) : List Nat :=
  match s.root_addr with
  | none => []
  | some root => treeIdsAux s fuel [root]

/-- Key strictly below the (optional) upper bound. -/
def underHi : Option Int → Int → Bool
  | none, _ => true
  | some hi, k => decide (k < hi)

/-- Key strictly above the (optional) lower bound. -/
def overLo : Option Int → Int → Bool
  | none, _ => true
  | some lo, k => decide (lo < k)

/-- Strictly increasing key list. -/
def sortedb : List Int → Bool
  | [] => true
  | [_] => true
  | a :: b :: rest => decide (a < b) && sortedb (b :: rest)

/-- Interleave a child list with the open intervals cut out by the keys:
child `0` gets `(lo, keys 0)`, child `i+1` gets `(keys i, keys (i+1))`,
the last child gets `(keys last, hi)`. -/
def keyIntervals (lo : Option Int) : List Int → Option Int → List (Option Int × Option Int)
  | [], hi => [(lo, hi)]
  | k :: rest, hi => (lo, some k) :: keyIntervals (some k) rest hi

/-- The balance/order checker behind the spec's invariants, as a worklist
over `(address, is root, expected height, lower bound, upper bound)`
items: every non-root node has between `d` and `2d` keys, keys in a node
are strictly increasing and fit the separator interval inherited from the
ancestors, leaves all sit at height 0 (equal depth), and an internal node
has one more child than keys. -/
def wfAux (s : BTreeState) : Nat → List (Nat × Bool × Nat × Option Int × Option Int) → Bool
  | 0, _ => false
  | _ + 1, [] => true
  | fuel + 1, (addr, isRoot, ht, lo, hi) :: rest =>
    match s.index.find addr with
    | none => false
    | some node =>
      sortedb node.keys &&
      node.keys.all (fun k => overLo lo k && underHi hi k) &&
      (isRoot || (decide (s.d ≤ node.keys.length) && decide (node.keys.length ≤ 2 * s.d))) &&
      (if node.is_leaf then
        decide (ht = 0) && node.children.isEmpty && wfAux s fuel rest
      else
        decide (node.children.length = node.keys.length + 1) &&
        (match ht with
         | 0 => false
         | ht' + 1 =>
           wfAux s fuel
             (((node.children.zip (keyIntervals lo node.keys hi)).map
                 (fun p => (p.1, false, ht', p.2.1, p.2.2))) ++ rest)))

/-- The tree rooted at `root_addr` satisfies the balance invariants for
some height (an empty tree does vacuously). -/
def wfState (s : BTreeState) : Prop :=
  match s.root_addr with
  | none => True
  | some root => ∃ fuel ht, wfAux s fuel [(root, true, ht, none, none)] = true

/-- A conservative lower bound on the size in bytes of `pickle.dumps`
applied to a record: the pickled stream spends at least one byte per list
element.  Only used to exhibit records whose encoding cannot fit the
1024-byte record slots that `_write_record`/`_read_record` assume
(`f.seek(addr * 1024)`). -/
def pickledSizeLB (r : Record) : Nat := r.numbers.length

/-- The record slot size assumed by the data-file layout. -/
def RECORD_SLOT_BYTES : Nat := 1024

end BTree

/-! Concrete scenario states used by individual claims. -/

/-- The tree after inserting keys 1, 2, 3, 4 (d = 2): a single leaf root
holding four keys, one short of overflowing. -/
def c1Four : BTreeState :=
  BTree.execOps (BTree.initState 2)
    [BTree.Op.ins 10 ⟨1, [1]⟩, BTree.Op.ins 10 ⟨2, [2]⟩, BTree.Op.ins 10 ⟨3, [3]⟩]

/-- `c1Four` plus key 4. -/
def c1S4 : BTreeState := (BTree.insert 10 c1Four ⟨4, [4]⟩).1

/-- `c1S4` after attempting to insert key 5 (the insert that overflows
the root and enters `_split_node`). -/
def c1S5 : BTreeState := (BTree.insert 10 c1S4 ⟨5, [5]⟩).1

/-- The spec's concrete scenario prefix: keys 10, 20, 5, 6 inserted into a
fresh d = 2 tree. -/
def c2S4 : BTreeState :=
  BTree.execOps (BTree.initState 2)
    [BTree.Op.ins 10 ⟨10, [0]⟩, BTree.Op.ins 10 ⟨20, [0]⟩,
     BTree.Op.ins 10 ⟨5, [0]⟩, BTree.Op.ins 10 ⟨6, [0]⟩]

/-- `c2S4` after attempting to insert the fifth key 12. -/
def c2S5 : BTreeState := (BTree.insert 10 c2S4 ⟨12, [0]⟩).1

/-- An internal root (page 0) with separator key 30 pointing at record
page 100, its left child (page 1) holding keys 10, 20 and its right child
(page 2) overflowing with keys 40..80 (d = 2): the configuration
`_handle_overflow` resolves by compensation with the left sibling.  Each
record frame sits at byte offset `addr * 1024` of the data file, the
on-disk layout `_write_record` produces. -/
def c4State : BTreeState :=
  { d := 2, root_addr := some 0, next_page_addr := 200, free_pages := [],
    free_file := [],
    index :=
      [(0, ⟨[30], [some 100], [1, 2], false, none⟩),
       (1, ⟨[10, 20], [some 101, some 102], [], true, some 0⟩),
       (2, ⟨[40, 50, 60, 70, 80],
            [some 103, some 104, some 105, some 106, some 107], [], true, some 0⟩)],
    data :=
      [(100 * 1024, ⟨30, [30]⟩), (101 * 1024, ⟨10, [10]⟩), (102 * 1024, ⟨20, [20]⟩),
       (103 * 1024, ⟨40, [40]⟩), (104 * 1024, ⟨50, [50]⟩), (105 * 1024, ⟨60, [60]⟩),
       (106 * 1024, ⟨70, [70]⟩), (107 * 1024, ⟨80, [80]⟩)],
    dataEnd := 108 * 1024, reads := 0, writes := 0 }

/-- `c4State` after the compensation triggered by the overflow of page 2. -/
def c4After : BTreeState := (BTree.tryCompensation c4State 2).1

/-- A record of 1300 numbers, whose pickled encoding cannot fit a
1024-byte record slot. -/
def c5BigRecord : Record := ⟨1, List.replicate 1300 0⟩

/-- A store in which key 1 was inserted, key 2 was inserted and then
deleted: page id 2 (key 2's record page) sits in the free pool when the
process stops. -/
def c7PreRestart : BTreeState :=
  BTree.execOps (BTree.initState 2)
    [BTree.Op.ins 10 ⟨1, [0]⟩, BTree.Op.ins 10 ⟨2, [0]⟩, BTree.Op.del 10 2]

/-- A one-record store: key 1's record frame sits at end-of-file offset
0, which coincides with its slot `0 * 1024`, so this is the one record
the index can still read back. -/
def c6State : BTreeState := (BTree.insert 5 (BTree.initState 2) ⟨1, [2]⟩).1

/-- `c6State` plus key 2: the second record frame is appended at the
current end of file (a few dozen bytes), nowhere near its slot
`2 * 1024`, so `_read_record(2)` raises. -/
def c6Two : BTreeState := (BTree.insert 5 c6State ⟨2, [3]⟩).1

/-- The shape every root node has in a state reachable from a fresh
store: a leaf with no parent and no children, strictly increasing keys,
one concrete (`some`) record address per key, all of them distinct,
below the allocation counter, and disjoint from the free pool. -/
structure NodeInv (s : BTreeState) (a : Nat) (node : BTreeNode) : Prop where
  leaf : node.is_leaf = true
  par : node.parent_addr = none
  chl : node.children = []
  sorted : node.keys.Pairwise (· < ·)
  lens : node.addresses.length = node.keys.length
  addrs_some : ∀ x ∈ node.addresses, ∃ n : Nat, x = some n
  addrs_nodup : node.addresses.Nodup
  self_notin : some a ∉ node.addresses
  addr_lt : ∀ n : Nat, some n ∈ node.addresses → n < s.next_page_addr
  self_lt : a < s.next_page_addr
  pool_self : some a ∉ s.free_pages
  pool_addrs : ∀ x ∈ node.addresses, x ∉ s.free_pages

/-- The inductive invariant of reachable states: the root (when present)
satisfies `NodeInv`, and the free pool holds distinct, concrete,
below-counter ids. -/
structure ReachInv (s : BTreeState) : Prop where
  root_ok : ∀ a : Nat, s.root_addr = some a →
    ∃ node, s.index.find a = some node ∧ NodeInv s a node
  pool_some : ∀ x ∈ s.free_pages, ∃ n : Nat, x = some n
  pool_nodup : s.free_pages.Nodup
  pool_lt : ∀ n : Nat, some n ∈ s.free_pages → n < s.next_page_addr

/-! Theorems.  Each claim of the specification audit gets exactly one
theorem below (plus a witness or counterexample where required). -/

set_option maxRecDepth 8000 in
/-- Claim C1 (failing-input theorem): inserting the distinct keys
1, 2, 3, 4, 5 into a fresh d = 2 tree does not leave every inserted key
searchable.  The insert of key 4 succeeds, the insert of key 5 raises
inside `_split_node` (`node.addresses[mid]` is read after `addresses` was
truncated to `mid` elements), and afterwards `search(4)` returns `None`
even though key 4 was inserted and never deleted: the crashed split threw
away the upper half of the root's keys. -/
theorem insert_split_crash_denies_search :
    (BTree.insert 10 c1Four ⟨4, [4]⟩).2 = some true
    ∧ (BTree.insert 10 c1S4 ⟨5, [5]⟩).2 = none
    ∧ (BTree.search 10 c1S5 4).2 = some none :=
  ⟨rfl, rfl, rfl⟩

set_option maxRecDepth 8000 in
/-- Claim C2 (failing-input theorem): in the spec's d = 2 scenario the
fifth insert (key 12) must split the root once; instead it raises inside
`_split_node`, the root page 1 stays a leaf whose keys are only `[5, 6]`
(no internal root with one separator is ever created, keys 10 and 20 are
lost).  The later `search(6)` raises too — key 6's record was appended at
end of file by the append-mode insert write, so its slot 4 is unreadable
— and `delete(10)` finds no key 10 and reports failure instead of
performing predecessor substitution. -/
theorem scenario_fifth_insert_raises :
    (BTree.insert 10 c2S4 ⟨12, [0]⟩).2 = none
    ∧ c2S5.root_addr = some 1
    ∧ c2S5.index.find 1 = some ⟨[5, 6], [some 3, some 4], [], true, none⟩
    ∧ (BTree.search 10 c2S5 6).2 = none
    ∧ (BTree.delete 10 c2S5 10).2 = some false :=
  ⟨rfl, rfl, rfl, rfl, rfl⟩

set_option maxRecDepth 8000 in
/-- Claim C4 (failing-input theorem): compensation does not preserve the
pairing of keys with record addresses.  In `c4State`, the overflowing
node (keys 40..80) is compensated with its left sibling; afterwards the
parent's new separator key 50 is still paired with page 100 — the record
of the old separator key 30 — so `search(50)` resolves to the record
whose key is 30, and the demoted key 30 sits in the left sibling paired
with the address `None`, so `search(30)` raises. -/
theorem compensation_breaks_key_address_pairing :
    (BTree.tryCompensation c4State 2).2 = some true
    ∧ c4After.index.find 0 = some ⟨[50], [some 100], [1, 2], false, none⟩
    ∧ c4After.index.find 1 =
        some ⟨[10, 20, 30, 40], [some 101, some 102, none, some 103], [], true, some 0⟩
    ∧ (BTree.search 10 c4After 50).2 = some (some ⟨30, [30]⟩)
    ∧ (BTree.search 10 c4After 30).2 = none :=
  ⟨rfl, rfl, rfl, rfl, rfl⟩

set_option maxRecDepth 8000 in
/-- Claim C5 (counterexample): inserting a record whose pickled encoding
is larger than the 1024-byte record slot does not fail with a capacity
error — no size check exists anywhere in the write path — and it does not
leave the id counter unchanged: the insert reports success and the
counter advances to 2 (record page plus root page). -/
theorem oversize_insert_succeeds_counterexample :
    1024 < BTree.pickledSizeLB c5BigRecord
    ∧ (BTree.insert 1 (BTree.initState 2) c5BigRecord).2 = some true
    ∧ (BTree.insert 1 (BTree.initState 2) c5BigRecord).1.next_page_addr = 2
    ∧ (BTree.insert 1 (BTree.initState 2) c5BigRecord).1.data.find 0 = some c5BigRecord :=
  ⟨by norm_num [BTree.pickledSizeLB, c5BigRecord], rfl, rfl, rfl⟩

set_option maxRecDepth 8000 in
/-- Claim C5 (amended): `insert` performs no capacity check at all — for a
record of any size (in particular any number count, hence any encoded
size), inserting into a fresh store reports success, writes the record to
page 0, and advances the id counter to 2. -/
theorem insert_performs_no_capacity_check (d fuel : Nat) (key : Int) (ns : List Int) :
    (BTree.insert fuel (BTree.initState d) ⟨key, ns⟩).2 = some true
    ∧ (BTree.insert fuel (BTree.initState d) ⟨key, ns⟩).1.data.find 0 = some ⟨key, ns⟩
    ∧ (BTree.insert fuel (BTree.initState d) ⟨key, ns⟩).1.next_page_addr = 2 :=
  ⟨rfl, rfl, rfl⟩

/-- Claim C7 (counterexample): page id 2 is freed (delete of key 2) before
the restart, the pool `[some 2]` is reloaded from the `.free` file by the
restarted store, and the very next allocation hands out id 2 again — a
pre-restart-freed id, not a newly minted one (the reset counter would have
minted 0). -/
theorem restart_reuses_freed_page_id :
    c7PreRestart.free_pages = [some 2]
    ∧ (BTree.restart c7PreRestart).next_page_addr = 0
    ∧ (BTree.getNewPageAddr (BTree.restart c7PreRestart)).2 = some 2 :=
  ⟨rfl, rfl, rfl⟩

set_option maxRecDepth 8000 in
/-- Claim C7 (amended): the free pool is persisted, but only as saved at
the last reclaim: `_free_page_addr` rewrites the `.free` file after every
append, `_get_new_page_addr` pops without saving, and `_init_files`
reloads the file on reopen.  So a restarted store starts from the
last-saved pool — ids freed before the restart are served from it before
any minting, while pops made since the last save are forgotten (their
ids reappear in the reloaded pool) — and the root id and the id counter,
never persisted, reset to `None` and 0 while the page files keep their
bytes. -/
theorem free_pool_persists_across_restart (s : BTreeState) :
    (BTree.restart s).free_pages = s.free_file
    ∧ (BTree.restart s).index = s.index
    ∧ (BTree.restart s).data = s.data
    ∧ (BTree.restart s).root_addr = none
    ∧ (BTree.restart s).next_page_addr = 0
    ∧ (∀ x : Option Nat,
        (BTree.freePageAddr s x).free_file = s.free_pages ++ [x]
        ∧ (BTree.freePageAddr s x).free_pages = s.free_pages ++ [x])
    ∧ (BTree.getNewPageAddr s).1.free_file = s.free_file
    ∧ (∀ (rest : List (Option Nat)) (x : Option Nat),
        pyPopLast s.free_file = some (rest, x) →
        BTree.getNewPageAddr (BTree.restart s) =
          ({ BTree.restart s with free_pages := rest }, x)) := by
  refine ⟨rfl, rfl, rfl, rfl, rfl, fun x => ⟨rfl, rfl⟩, ?_, fun rest x h => ?_⟩
  · unfold BTree.getNewPageAddr
    cases hp : pyPopLast s.free_pages with
    | none => rfl
    | some p => rfl
  · unfold BTree.getNewPageAddr
    simp [BTree.restart, h]

/-- Claim C7 (witness for the amended theorem's hypothesis): applied to
the concrete pre-restart store whose saved pool is `[some 2]`. -/
theorem free_pool_restart_witness :
    BTree.getNewPageAddr (BTree.restart c7PreRestart) =
      ({ BTree.restart c7PreRestart with free_pages := [] }, some 2) :=
  (free_pool_persists_across_restart c7PreRestart).2.2.2.2.2.2.2 [] (some 2) (by rfl)

set_option maxRecDepth 8000 in
/-- Claim C8 (counterexample): the id space starts at 0, not 1 — the very
first allocation of a fresh store returns id 0 and the first inserted
record is stored in data page 0, so id 0 is not reserved for any metadata
page (none exists: no page ever records the counter or the root id). -/
theorem record_allocated_page_id_zero :
    (BTree.initState 2).next_page_addr = 0
    ∧ (BTree.getNewPageAddr (BTree.initState 2)).2 = some 0
    ∧ (BTree.insert 1 (BTree.initState 2) ⟨7, [1]⟩).1.data.find 0 = some ⟨7, [1]⟩
    ∧ (BTree.insert 1 (BTree.initState 2) ⟨7, [1]⟩).1.root_addr = some 1 :=
  ⟨rfl, rfl, rfl, rfl⟩

/-- Claim C8 (amended): page ids start at 0: a fresh store's counter is 0,
its first allocation returns 0 (used by the first record; the root node
gets id 1), and neither the counter nor the root id is recorded in any
page — both live only in process memory, so reopening the store resets
them to 0 and `None` while the page files keep their contents. -/
theorem page_id_space_starts_at_zero (d fuel : Nat) (r : Record) :
    (BTree.initState d).next_page_addr = 0
    ∧ (BTree.getNewPageAddr (BTree.initState d)).2 = some 0
    ∧ (BTree.insert fuel (BTree.initState d) r).1.data.find 0 = some r
    ∧ (BTree.insert fuel (BTree.initState d) r).1.root_addr = some 1
    ∧ (BTree.restart (BTree.insert fuel (BTree.initState d) r).1).next_page_addr = 0
    ∧ (BTree.restart (BTree.insert fuel (BTree.initState d) r).1).root_addr = none
    ∧ (BTree.restart (BTree.insert fuel (BTree.initState d) r).1).data =
        (BTree.insert fuel (BTree.initState d) r).1.data :=
  ⟨rfl, rfl, rfl, rfl, rfl, rfl, rfl⟩

/-- Helper: `_search_recursive` only ever bumps the read counter — the
resulting state is the input state with a new `reads` value. -/
theorem searchRec_fst : ∀ (fuel : Nat) (s : BTreeState) (a : Nat) (k : Int),
    ∃ m, (BTree.searchRec fuel s a k).1 = { s with reads := m } := by
  intro fuel
  induction fuel with
  | zero => exact fun s a k => ⟨s.reads, rfl⟩
  | succ n ih =>
    intro s a k
    rw [BTree.searchRec]
    cases hf : s.index.find a with
    | none => exact ⟨s.reads, by simp [BTree.readNode, hf]⟩
    | some node =>
      simp only [BTree.readNode, hf]
      split
      · split
        · cases hd : s.data.find (‹Nat› * 1024) with
          | none => exact ⟨s.reads + 1, by simp [BTree.readRecord, hd]⟩
          | some r => exact ⟨s.reads + 1 + 1, by simp [BTree.readRecord, hd]⟩
        · exact ⟨s.reads + 1, rfl⟩
        · exact ⟨s.reads + 1, rfl⟩
      · split
        · exact ⟨s.reads + 1, rfl⟩
        · split
          · exact ih _ _ _
          · exact ⟨s.reads + 1, rfl⟩

/-- Helper: `search` only ever bumps the read counter. -/
theorem search_fst (fuel : Nat) (s : BTreeState) (k : Int) :
    ∃ m, (BTree.search fuel s k).1 = { s with reads := m } := by
  unfold BTree.search
  cases hr : s.root_addr with
  | none =>
    refine ⟨s.reads, ?_⟩
    show s = _
    rw [← hr]
  | some root =>
    obtain ⟨m, hm⟩ := searchRec_fst fuel s root k
    refine ⟨m, ?_⟩
    conv_rhs => rw [← hr]
    exact hm

/-- Claim C10: `search` never writes — for every state and key it leaves
the index file, the data file, the free pool, the root id, the allocation
counter and the write counter exactly as they were (only the read counter
can change). -/
theorem search_changes_only_read_counter (fuel : Nat) (s : BTreeState) (key : Int) :
    (BTree.search fuel s key).1.index = s.index
    ∧ (BTree.search fuel s key).1.data = s.data
    ∧ (BTree.search fuel s key).1.free_pages = s.free_pages
    ∧ (BTree.search fuel s key).1.root_addr = s.root_addr
    ∧ (BTree.search fuel s key).1.next_page_addr = s.next_page_addr
    ∧ (BTree.search fuel s key).1.writes = s.writes
    ∧ (BTree.search fuel s key).1.d = s.d
    ∧ (BTree.search fuel s key).1.dataEnd = s.dataEnd
    ∧ (BTree.search fuel s key).1.free_file = s.free_file := by
  obtain ⟨m, hm⟩ := search_fst fuel s key
  rw [hm]
  exact ⟨rfl, rfl, rfl, rfl, rfl, rfl, rfl, rfl, rfl⟩

set_option maxRecDepth 8000 in
/-- Claim C6 (failing-input theorem): the claimed duplicate rejection
only happens for the very first record ever inserted.  `insert` writes
records through `open(..., 'ab')`, whose seek is ignored, so every
record after the first lands at end of file instead of its
`record_addr * 1024` slot; the duplicate-checking `search` then hits
`_read_record`'s EOFError and the second insert raises instead of
returning `False`.  Concretely: after inserting keys 1 then 2 into a
fresh d = 2 store, re-inserting key 1 (slot 0 = file offset 0, readable)
is rejected with `False`, but re-inserting key 2 raises (outcome
`none`), mutating nothing — the raise happens inside the read, before
any write. -/
theorem duplicate_insert_raises_not_rejects :
    (BTree.insert 5 c6State ⟨1, [9]⟩).2 = some false
    ∧ (BTree.insert 10 c6Two ⟨2, [9]⟩).2 = none
    ∧ (BTree.insert 10 c6Two ⟨2, [9]⟩).1.index = c6Two.index
    ∧ (BTree.insert 10 c6Two ⟨2, [9]⟩).1.data = c6Two.data
    ∧ (BTree.insert 10 c6Two ⟨2, [9]⟩).1.dataEnd = c6Two.dataEnd
    ∧ (BTree.insert 10 c6Two ⟨2, [9]⟩).1.free_pages = c6Two.free_pages
    ∧ (BTree.insert 10 c6Two ⟨2, [9]⟩).1.free_file = c6Two.free_file
    ∧ (BTree.insert 10 c6Two ⟨2, [9]⟩).1.next_page_addr = c6Two.next_page_addr
    ∧ (BTree.insert 10 c6Two ⟨2, [9]⟩).1.root_addr = c6Two.root_addr
    ∧ (BTree.insert 10 c6Two ⟨2, [9]⟩).1.writes = c6Two.writes :=
  ⟨rfl, rfl, rfl, rfl, rfl, rfl, rfl, rfl, rfl, rfl⟩
theorem pyPopLast_eq_append : ∀ {l rest : List α} {x : α},
    pyPopLast l = some (rest, x) → l = rest ++ [x] := by
  intro l
  induction l with
  | nil => intro rest x h; simp [pyPopLast] at h
  | cons a t ih =>
    intro rest x h
    cases t with
    | nil =>
      simp [pyPopLast] at h
      simp [h.1.symm, h.2.symm]
    | cons b u =>
      rw [pyPopLast] at h
      cases hp : pyPopLast (b :: u) with
      | none => rw [hp] at h; exact absurd h (by simp)
      | some p =>
        rw [hp] at h
        obtain ⟨r0, x0⟩ := p
        simp only [Option.some.injEq, Prod.mk.injEq] at h
        obtain ⟨hr, hx⟩ := h
        have := ih hp
        subst hr hx
        simp [this]

theorem pyPopLast_none : ∀ {l : List α}, pyPopLast l = none → l = [] := by
  intro l h
  cases l with
  | nil => rfl
  | cons a t =>
    cases t with
    | nil => simp [pyPopLast] at h
    | cons b u =>
      rw [pyPopLast] at h
      cases hp : pyPopLast (b :: u) with
      | none => exact absurd (pyPopLast_none hp) (by simp)
      | some p => rw [hp] at h; simp at h

theorem PageMap.find_write_self (m : PageMap α) (a : Nat) (v : α) :
    (m.write a v).find a = some v := by
  induction m with
  | nil => simp [PageMap.write, PageMap.find]
  | cons p rest ih =>
    obtain ⟨k, w⟩ := p
    by_cases hk : k = a
    · subst hk; simp [PageMap.write, PageMap.find]
    · simp [PageMap.write, PageMap.find, hk, ih]

theorem PageMap.find_write_ne (m : PageMap α) (a b : Nat) (v : α) (h : b ≠ a) :
    (m.write a v).find b = m.find b := by
  induction m with
  | nil => simp [PageMap.write, PageMap.find, Ne.symm h]
  | cons p rest ih =>
    obtain ⟨k, w⟩ := p
    by_cases hk : k = a
    · subst hk
      simp [PageMap.write, PageMap.find, Ne.symm h]
    · simp [PageMap.write, PageMap.find, hk, ih]

theorem mem_pyInsertAt {x v : α} : ∀ (l : List α) (i : Nat),
    x ∈ pyInsertAt l i v ↔ x = v ∨ x ∈ l := by
  intro l
  induction l with
  | nil => intro i; cases i <;> simp [pyInsertAt]
  | cons a t ih =>
    intro i
    cases i with
    | zero => simp [pyInsertAt]
    | succ n =>
      rw [pyInsertAt]
      simp only [List.mem_cons, ih n]
      tauto

theorem length_pyInsertAt {v : α} : ∀ (l : List α) (i : Nat),
    (pyInsertAt l i v).length = l.length + 1 := by
  intro l
  induction l with
  | nil => intro i; cases i <;> rfl
  | cons a t ih =>
    intro i
    cases i with
    | zero => rfl
    | succ n => simp [pyInsertAt, ih n]

theorem nodup_pyInsertAt {v : α} : ∀ (l : List α) (i : Nat),
    v ∉ l → l.Nodup → (pyInsertAt l i v).Nodup := by
  intro l
  induction l with
  | nil => intro i _ _; cases i <;> simp [pyInsertAt]
  | cons a t ih =>
    intro i hv hnd
    cases i with
    | zero =>
      rw [pyInsertAt]
      exact List.nodup_cons.mpr ⟨hv, hnd⟩
    | succ n =>
      rw [pyInsertAt]
      rw [List.nodup_cons] at hnd ⊢
      refine ⟨?_, ih n (fun hm => hv (List.mem_cons_of_mem a hm)) hnd.2⟩
      intro hm
      rcases (mem_pyInsertAt t n).mp hm with rfl | hmt
      · exact hv (List.mem_cons_self a t)
      · exact hnd.1 hmt

theorem pyRemoveAt_sublist : ∀ (l : List α) (i : Nat), List.Sublist (pyRemoveAt l i) l := by
  intro l
  induction l with
  | nil => intro i; exact List.Sublist.refl []
  | cons a t ih =>
    intro i
    cases i with
    | zero => exact List.Sublist.cons a (List.Sublist.refl t)
    | succ n => exact List.Sublist.cons₂ a (ih n)

theorem length_pyRemoveAt : ∀ (l : List α) (i : Nat), i < l.length →
    (pyRemoveAt l i).length + 1 = l.length := by
  intro l
  induction l with
  | nil => intro i h; simp at h
  | cons a t ih =>
    intro i h
    cases i with
    | zero => rfl
    | succ n =>
      rw [pyRemoveAt]
      simp only [List.length_cons] at h ⊢
      rw [ih n (Nat.lt_of_succ_lt_succ h)]

theorem not_mem_pyRemoveAt {x : α} : ∀ (l : List α) (i : Nat),
    l.Nodup → l.get? i = some x → x ∉ pyRemoveAt l i := by
  intro l
  induction l with
  | nil => intro i _ h; simp at h
  | cons a t ih =>
    intro i hnd h
    rw [List.nodup_cons] at hnd
    cases i with
    | zero =>
      simp only [List.get?] at h
      injection h with h
      subst h
      exact fun hm => hnd.1 hm
    | succ n =>
      simp only [List.get?] at h
      rw [pyRemoveAt]
      intro hm
      rcases List.mem_cons.mp hm with rfl | hmt
      · exact hnd.1 (List.get?_mem h)
      · exact ih n hnd.2 h hmt

theorem treeIdsAux_nil (s : BTreeState) : ∀ fuel, BTree.treeIdsAux s fuel [] = [] := by
  intro fuel; cases fuel <;> rfl

theorem pairwise_pyInsertAt (k : Int) : ∀ (l : List Int),
    l.Pairwise (· < ·) → l.get? (BTree.findPos l k) ≠ some k →
    (pyInsertAt l (BTree.findPos l k) k).Pairwise (· < ·) := by
  intro l
  induction l with
  | nil => intro _ _; simp [pyInsertAt, BTree.findPos]
  | cons a t ih =>
    intro h hne
    rw [BTree.findPos] at hne ⊢
    by_cases hka : k > a
    · rw [if_pos hka] at hne ⊢
      rw [pyInsertAt]
      refine List.pairwise_cons.mpr ⟨?_, ih (List.Pairwise.of_cons h) (by simpa using hne)⟩
      intro b hb
      rcases (mem_pyInsertAt t (BTree.findPos t k)).mp hb with rfl | hbt
      · exact hka
      · exact List.rel_of_pairwise_cons h hbt
    · rw [if_neg hka] at hne ⊢
      have hak : k < a := by
        rcases Nat.lt_or_ge 0 1 with _ | _
        · have h1 : a ≠ k := by
            intro e; exact hne (by simp [e])
          exact lt_of_le_of_ne (le_of_not_lt hka) (Ne.symm h1)
        · omega
      rw [pyInsertAt]
      refine List.pairwise_cons.mpr ⟨?_, h⟩
      intro b hb
      rcases List.mem_cons.mp hb with rfl | hbt
      · exact hak
      · exact lt_trans hak (List.rel_of_pairwise_cons h hbt)

theorem getNewPageAddr_spec (s : BTreeState)
    (hsome : ∀ x ∈ s.free_pages, ∃ n : Nat, x = some n)
    (hnd : s.free_pages.Nodup)
    (hlt : ∀ n : Nat, some n ∈ s.free_pages → n < s.next_page_addr) :
    ∃ (t : BTreeState) (n : Nat), BTree.getNewPageAddr s = (t, some n) ∧
      t.d = s.d ∧ t.root_addr = s.root_addr ∧ t.index = s.index ∧ t.data = s.data ∧
      t.reads = s.reads ∧ t.writes = s.writes ∧
      s.next_page_addr ≤ t.next_page_addr ∧ n < t.next_page_addr ∧
      (∀ x ∈ t.free_pages, x ∈ s.free_pages) ∧ t.free_pages.Nodup ∧
      some n ∉ t.free_pages ∧
      (∀ x ∈ t.free_pages, ∃ m : Nat, x = some m) ∧
      (∀ m : Nat, some m ∈ t.free_pages → m < t.next_page_addr) ∧
      (some n ∈ s.free_pages ∨ (n = s.next_page_addr ∧ t.free_pages = s.free_pages)) := by
  unfold BTree.getNewPageAddr
  cases hp : pyPopLast s.free_pages with
  | none =>
    have he : s.free_pages = [] := pyPopLast_none hp
    refine ⟨_, s.next_page_addr, rfl, rfl, rfl, rfl, rfl, rfl, rfl,
      Nat.le_succ _, Nat.lt_succ_self _, ?_, ?_, ?_, ?_, ?_, ?_⟩
    · intro x hx; exact hx
    · exact hnd
    · rw [he]; simp
    · exact hsome
    · intro m hm; exact Nat.lt_succ_of_lt (hlt m hm)
    · exact Or.inr ⟨rfl, rfl⟩
  | some p =>
    obtain ⟨rest, x⟩ := p
    have hl : s.free_pages = rest ++ [x] := pyPopLast_eq_append hp
    have hxmem : x ∈ s.free_pages := by rw [hl]; simp
    obtain ⟨n, rfl⟩ := hsome x hxmem
    have hrest_sub : ∀ y ∈ rest, y ∈ s.free_pages := by
      intro y hy; rw [hl]; exact List.mem_append_left _ hy
    have hnotin : some n ∉ rest := by
      rw [hl] at hnd
      rcases List.nodup_append.mp hnd with ⟨_, _, hdisj⟩
      intro hmem
      exact hdisj hmem (List.mem_singleton_self _)
    refine ⟨_, n, rfl, rfl, rfl, rfl, rfl, rfl, rfl, le_refl _, hlt n hxmem, ?_, ?_, ?_, ?_, ?_, ?_⟩
    · exact hrest_sub
    · rw [hl] at hnd
      exact (List.nodup_append.mp hnd).1
    · exact hnotin
    · intro y hy; exact hsome y (hrest_sub y hy)
    · intro m hm; exact hlt m (hrest_sub _ hm)
    · exact Or.inl hxmem

theorem reachInv_congr (s t : BTreeState) (h : ReachInv s)
    (hroot : t.root_addr = s.root_addr) (hnext : t.next_page_addr = s.next_page_addr)
    (hfree : t.free_pages = s.free_pages) (hindex : t.index = s.index) : ReachInv t := by
  constructor
  · intro a ha
    rw [hroot] at ha
    obtain ⟨node, hf, hn⟩ := h.root_ok a ha
    refine ⟨node, by rw [hindex]; exact hf, ?_⟩
    exact ⟨hn.leaf, hn.par, hn.chl, hn.sorted, hn.lens, hn.addrs_some, hn.addrs_nodup,
      hn.self_notin, by rw [hnext]; exact hn.addr_lt, by rw [hnext]; exact hn.self_lt,
      by rw [hfree]; exact hn.pool_self, by rw [hfree]; exact hn.pool_addrs⟩
  · rw [hfree]; exact h.pool_some
  · rw [hfree]; exact h.pool_nodup
  · intro n hn2; rw [hfree] at hn2; rw [hnext]; exact h.pool_lt n hn2

theorem search_absent_at_leaf_root (fuel : Nat) (s s1 : BTreeState) (a : Nat)
    (node : BTreeNode) (k : Int)
    (hroot : s.root_addr = some a) (hfind : s.index.find a = some node)
    (h : BTree.search fuel s k = (s1, some none)) :
    node.keys.get? (BTree.findPos node.keys k) ≠ some k := by
  unfold BTree.search at h
  rw [hroot] at h
  cases fuel with
  | zero => simp only [BTree.searchRec] at h; simp at h
  | succ n =>
    simp only [BTree.searchRec, BTree.readNode, hfind] at h
    intro hk
    rw [if_pos hk] at h
    cases ha : node.addresses.get? (BTree.findPos node.keys k) with
    | none => rw [ha] at h; simp at h
    | some oa =>
      rw [ha] at h
      cases oa with
      | none => simp at h
      | some ra =>
        simp only [BTree.readRecord] at h
        cases hd : s.data.find (ra * 1024) with
        | none => rw [hd] at h; simp at h
        | some rr => rw [hd] at h; simp at h

theorem reachInv_split_leafroot (fuel : Nat) (s : BTreeState) (a0 : Nat)
    (hInv : ReachInv s) (hroot : s.root_addr = some a0) :
    ReachInv (BTree.ovfRun fuel s (BTree.OvfCall.splt a0)).1 := by
  cases fuel with
  | zero => exact hInv
  | succ n =>
    obtain ⟨node, hfind, hn⟩ := hInv.root_ok a0 hroot
    simp only [BTree.ovfRun, BTree.readNode, hfind]
    cases hmk : node.keys.get? (node.keys.length / 2) with
    | none => exact reachInv_congr s _ hInv rfl rfl rfl rfl
    | some mid_key =>
      have hInv1 : ReachInv ({ s with reads := s.reads + 1 }) :=
        reachInv_congr _ _ hInv rfl rfl rfl rfl
      obtain ⟨t, nn, halloc, ht_d, ht_root, ht_index, ht_data, ht_reads, ht_writes,
        hnle, hnlt, hsub, hnd2, hnot, hsome2, hlt2, hcase⟩ :=
        getNewPageAddr_spec ({ s with reads := s.reads + 1 })
          hInv1.pool_some hInv1.pool_nodup hInv1.pool_lt
      rw [halloc]
      rw [hn.par]
      have hlen : (node.addresses.take (node.keys.length / 2)).length ≤ node.keys.length / 2 := by
        rw [List.length_take]; exact min_le_left _ _
      have hnone : (node.addresses.take (node.keys.length / 2)).get? (node.keys.length / 2) = none :=
        List.get?_eq_none.mpr hlen
      simp only [hnone, hn.leaf, ite_true]
      -- the crashed state: both pages written, allocation consumed
      constructor
      · intro a ha
        have ha2 : t.root_addr = some a := ha
        rw [ht_root] at ha2
        have ha3 : s.root_addr = some a := ha2
        have ha0 : a = a0 := by
          rw [hroot] at ha3
          exact (Option.some.inj ha3).symm
        subst ha0
        refine ⟨_, PageMap.find_write_self _ _ _, ?_⟩
        constructor
        · rfl
        · rfl
        · exact hn.chl
        · exact hn.sorted.sublist (List.take_sublist _ _)
        · rw [List.length_take, List.length_take, hn.lens]
        · intro x hx
          exact hn.addrs_some x ((List.take_sublist _ _).subset hx)
        · exact List.Nodup.sublist (List.take_sublist _ _) hn.addrs_nodup
        · intro hx
          exact hn.self_notin ((List.take_sublist _ _).subset hx)
        · intro mN hm
          exact lt_of_lt_of_le (hn.addr_lt mN ((List.take_sublist _ _).subset hm)) hnle
        · exact lt_of_lt_of_le hn.self_lt hnle
        · intro hx
          exact hn.pool_self (hsub _ hx)
        · intro x hx hmem
          exact hn.pool_addrs x ((List.take_sublist _ _).subset hx) (hsub _ hmem)
      · exact hsome2
      · exact hnd2
      · intro mN hm
        exact hlt2 mN hm

theorem reachInv_handleOverflow_leafroot (fuel : Nat) (s : BTreeState) (a0 : Nat)
    (hInv : ReachInv s) (hroot : s.root_addr = some a0) :
    ReachInv (BTree.ovfRun fuel s (BTree.OvfCall.hovf a0)).1 := by
  cases fuel with
  | zero => exact hInv
  | succ n =>
    obtain ⟨node, hfind, hn⟩ := hInv.root_ok a0 hroot
    simp only [BTree.ovfRun, BTree.readNode, hfind]
    have hcomp : BTree.tryCompensation ({ s with reads := s.reads + 1 }) a0 =
        ({ s with reads := s.reads + 1 + 1 }, some false) := by
      unfold BTree.tryCompensation
      simp only [BTree.readNode, hfind, hn.par]
    rw [hcomp]
    exact reachInv_split_leafroot n _ a0 (reachInv_congr _ _ hInv rfl rfl rfl rfl) hroot

theorem reachInv_insertRec_leafroot (fuel : Nat) (sW : BTreeState) (a0 nrec : Nat)
    (k : Int) (node : BTreeNode)
    (hInvW : ReachInv sW)
    (hroot : sW.root_addr = some a0)
    (hfind : sW.index.find a0 = some node)
    (habs : node.keys.get? (BTree.findPos node.keys k) ≠ some k)
    (hfresh_pool : some nrec ∉ sW.free_pages)
    (hfresh_lt : nrec < sW.next_page_addr)
    (hfresh_addr : some nrec ∉ node.addresses)
    (hfresh_self : nrec ≠ a0) :
    ReachInv (BTree.insertRec fuel sW a0 k nrec).1 := by
  obtain ⟨node', hfind', hn⟩ := hInvW.root_ok a0 hroot
  have hnode : node' = node := by
    rw [hfind] at hfind'
    exact (Option.some.inj hfind').symm
  rw [hnode] at hn
  cases fuel with
  | zero => exact hInvW
  | succ n =>
    simp only [BTree.insertRec, BTree.readNode, hfind, hn.leaf, ite_true]
    -- the leaf branch: write the enlarged node, then maybe repair overflow
    have hInv2 : ReachInv (BTree.writeNode { sW with reads := sW.reads + 1 } a0
        ⟨pyInsertAt node.keys (BTree.findPos node.keys k) k,
         pyInsertAt node.addresses (BTree.findPos node.keys k) (some nrec),
         node.children, true, node.parent_addr⟩) := by
      constructor
      · intro a ha
        have ha3 : sW.root_addr = some a := ha
        have ha0 : a = a0 := by
          rw [hroot] at ha3
          exact (Option.some.inj ha3).symm
        subst ha0
        refine ⟨_, PageMap.find_write_self _ _ _, ?_⟩
        constructor
        · rfl
        · exact hn.par
        · exact hn.chl
        · exact pairwise_pyInsertAt k node.keys hn.sorted habs
        · rw [length_pyInsertAt, length_pyInsertAt, hn.lens]
        · intro x hx
          rcases (mem_pyInsertAt node.addresses _).mp hx with rfl | hxm
          · exact ⟨nrec, rfl⟩
          · exact hn.addrs_some x hxm
        · exact nodup_pyInsertAt node.addresses _ hfresh_addr hn.addrs_nodup
        · intro hx
          rcases (mem_pyInsertAt node.addresses _).mp hx with he | hxm
          · exact hfresh_self (Option.some.inj he).symm
          · exact hn.self_notin hxm
        · intro mN hm
          rcases (mem_pyInsertAt node.addresses _).mp hm with he | hxm
          · rw [Option.some.inj he]; exact hfresh_lt
          · exact hn.addr_lt mN hxm
        · exact hn.self_lt
        · exact hn.pool_self
        · intro x hx
          rcases (mem_pyInsertAt node.addresses _).mp hx with rfl | hxm
          · exact hfresh_pool
          · exact hn.pool_addrs x hxm
      · exact hInvW.pool_some
      · exact hInvW.pool_nodup
      · exact hInvW.pool_lt
    split
    · exact reachInv_handleOverflow_leafroot n _ a0 hInv2 hroot
    · exact hInv2

theorem reachInv_insert (fuel : Nat) (s : BTreeState) (r : Record) (hInv : ReachInv s) :
    ReachInv (BTree.insert fuel s r).1 := by
  unfold BTree.insert
  obtain ⟨m, hm⟩ := search_fst fuel s r.key
  cases hs : BTree.search fuel s r.key with
  | mk s1 res =>
    rw [hs] at hm
    have hm' : s1 = { s with reads := m } := hm
    subst hm'
    have hInv1 : ReachInv ({ s with reads := m }) := reachInv_congr _ _ hInv rfl rfl rfl rfl
    cases res with
    | none => exact hInv1
    | some o =>
      cases o with
      | some found => exact hInv1
      | none =>
        obtain ⟨t, nrec, halloc, ht_d, ht_root, ht_index, ht_data, ht_reads, ht_writes,
          hnle, hnlt, hsub, hnd2, hnot, hsome2, hlt2, hcase⟩ :=
          getNewPageAddr_spec ({ s with reads := m })
            hInv1.pool_some hInv1.pool_nodup hInv1.pool_lt
        dsimp only
        rw [halloc]
        dsimp only
        have hrootT : (BTree.appendRecord t r).root_addr = s.root_addr := ht_root
        rw [hrootT]
        cases hr : s.root_addr with
        | none =>
          obtain ⟨t2, ra, halloc2, h2d, h2root, h2index, h2data, h2reads, h2writes,
            h2nle, h2nlt, h2sub, h2nd, h2not, h2some, h2lt, h2case⟩ :=
            getNewPageAddr_spec (BTree.appendRecord t r) hsome2 hnd2 hlt2
          rw [halloc2]
          dsimp only
          have hne : ra ≠ nrec := by
            rcases h2case with hmem | ⟨heq, _⟩
            · intro e; subst e; exact hnot hmem
            · intro e
              have heq' : ra = t.next_page_addr := heq
              have h1 : nrec < t.next_page_addr := hnlt
              omega
          constructor
          · intro a ha
            have ha2 : some ra = some a := ha
            have ha' : a = ra := (Option.some.inj ha2).symm
            subst ha'
            refine ⟨_, PageMap.find_write_self _ _ _, ?_⟩
            constructor
            · rfl
            · rfl
            · rfl
            · exact List.pairwise_singleton _ _
            · rfl
            · intro x hx
              rw [List.mem_singleton] at hx
              exact ⟨nrec, hx⟩
            · exact List.nodup_singleton _
            · intro hx
              rw [List.mem_singleton] at hx
              exact hne (Option.some.inj hx)
            · intro mN hmm2
              rw [List.mem_singleton] at hmm2
              rw [Option.some.inj hmm2]
              exact lt_of_lt_of_le hnlt h2nle
            · exact h2nlt
            · exact h2not
            · intro x hx
              rw [List.mem_singleton] at hx
              subst hx
              intro hmem
              exact hnot (h2sub _ hmem)
          · exact h2some
          · exact h2nd
          · exact h2lt
        | some a0 =>
          dsimp only
          obtain ⟨node, hfind, hn⟩ := hInv.root_ok a0 hr
          have habs := search_absent_at_leaf_root fuel s _ a0 node r.key hr hfind hs
          have hInvT : ReachInv t := by
            constructor
            · intro a ha
              have ha2 : s.root_addr = some a := by rw [← ht_root]; exact ha
              rw [hr] at ha2
              have ha' : a = a0 := (Option.some.inj ha2).symm
              subst ha'
              refine ⟨node, by rw [ht_index]; exact hfind, ?_⟩
              constructor
              · exact hn.leaf
              · exact hn.par
              · exact hn.chl
              · exact hn.sorted
              · exact hn.lens
              · exact hn.addrs_some
              · exact hn.addrs_nodup
              · exact hn.self_notin
              · intro mN hmem
                exact lt_of_lt_of_le (hn.addr_lt mN hmem) hnle
              · exact lt_of_lt_of_le hn.self_lt hnle
              · intro hmem
                exact hn.pool_self (hsub _ hmem)
              · intro x hx hmem
                exact hn.pool_addrs x hx (hsub _ hmem)
            · exact hsome2
            · exact hnd2
            · exact hlt2
          have hInvW : ReachInv (BTree.appendRecord t r) :=
            reachInv_congr t _ hInvT rfl rfl rfl rfl
          have hrootW : (BTree.appendRecord t r).root_addr = some a0 := by
            rw [hrootT]; exact hr
          have hfindW : (BTree.appendRecord t r).index.find a0 = some node := by
            show t.index.find a0 = some node
            rw [ht_index]; exact hfind
          have hfaddr : some nrec ∉ node.addresses := by
            rcases hcase with hmem | ⟨heq, _⟩
            · intro haddr
              exact hn.pool_addrs _ haddr hmem
            · intro haddr
              have h1 : nrec < s.next_page_addr := hn.addr_lt nrec haddr
              have h2 : nrec = s.next_page_addr := heq
              omega
          have hfself : nrec ≠ a0 := by
            rcases hcase with hmem | ⟨heq, _⟩
            · intro e
              subst e
              exact hn.pool_self hmem
            · intro e
              have h2 : nrec = s.next_page_addr := heq
              have h3 : a0 < s.next_page_addr := hn.self_lt
              omega
          have hmain := reachInv_insertRec_leafroot fuel (BTree.appendRecord t r) a0 nrec
            r.key node hInvW hrootW hfindW habs hnot hnlt hfaddr hfself
          cases hres : BTree.insertRec fuel (BTree.appendRecord t r) a0 r.key nrec with
          | mk s4 o2 =>
            rw [hres] at hmain
            cases o2 with
            | none => exact hmain
            | some u => exact hmain

theorem reachInv_deleteRec_leafroot (fuel : Nat) (s : BTreeState) (a0 : Nat) (k : Int)
    (hInv : ReachInv s) (hroot : s.root_addr = some a0) :
    ReachInv (BTree.deleteRec fuel s a0 k).1 ∧
    (BTree.deleteRec fuel s a0 k).1.root_addr = s.root_addr := by
  cases fuel with
  | zero => exact ⟨hInv, rfl⟩
  | succ n =>
    obtain ⟨node, hfind, hn⟩ := hInv.root_ok a0 hroot
    simp only [BTree.deleteRec, BTree.readNode, hfind]
    by_cases hk : node.keys.get? (BTree.findPos node.keys k) = some k
    · rw [if_pos hk]
      simp only [hn.leaf, ite_true]
      have hbound : BTree.findPos node.keys k < node.keys.length := by
        rcases List.get?_eq_some.mp hk with ⟨h, _⟩
        exact h
      have hbound2 : BTree.findPos node.keys k < node.addresses.length := by
        rw [hn.lens]; exact hbound
      cases ha : node.addresses.get? (BTree.findPos node.keys k) with
      | none => exact ⟨reachInv_congr _ _ hInv rfl rfl rfl rfl, rfl⟩
      | some ra =>
        obtain ⟨rn, hrn⟩ := hn.addrs_some ra (List.get?_mem ha)
        subst hrn
        dsimp only
        have hcnd : ¬((BTree.writeNode
            (BTree.freePageAddr { s with reads := s.reads + 1 } (some rn)) a0
            ⟨pyRemoveAt node.keys (BTree.findPos node.keys k),
             pyRemoveAt node.addresses (BTree.findPos node.keys k),
             node.children, true, node.parent_addr⟩).root_addr ≠ some a0 ∧
            (pyRemoveAt node.keys (BTree.findPos node.keys k)).length <
              BTree.minKeys (BTree.writeNode
                (BTree.freePageAddr { s with reads := s.reads + 1 } (some rn)) a0
                ⟨pyRemoveAt node.keys (BTree.findPos node.keys k),
                 pyRemoveAt node.addresses (BTree.findPos node.keys k),
                 node.children, true, node.parent_addr⟩)) := by
          rintro ⟨hne, _⟩
          exact hne hroot
        rw [if_neg hcnd]
        dsimp only [BTree.writeNode, BTree.freePageAddr]
        have hrnmem : some rn ∈ node.addresses := List.get?_mem ha
        have hrn_pool : some rn ∉ s.free_pages := hn.pool_addrs _ hrnmem
        refine ⟨?_, rfl⟩
        constructor
        · intro a ha2
          have ha3 : s.root_addr = some a := ha2
          have ha0 : a = a0 := by
            rw [hroot] at ha3
            exact (Option.some.inj ha3).symm
          subst ha0
          refine ⟨_, PageMap.find_write_self _ _ _, ?_⟩
          constructor
          · rfl
          · exact hn.par
          · exact hn.chl
          · exact hn.sorted.sublist (pyRemoveAt_sublist _ _)
          · dsimp only
            have h1 := length_pyRemoveAt node.addresses _ hbound2
            have h2 := length_pyRemoveAt node.keys _ hbound
            have h3 := hn.lens
            omega
          · intro x hx
            exact hn.addrs_some x ((pyRemoveAt_sublist _ _).subset hx)
          · exact List.Nodup.sublist (pyRemoveAt_sublist _ _) hn.addrs_nodup
          · intro hx
            exact hn.self_notin ((pyRemoveAt_sublist _ _).subset hx)
          · intro mN hm
            exact hn.addr_lt mN ((pyRemoveAt_sublist _ _).subset hm)
          · exact hn.self_lt
          · intro hx
            rcases List.mem_append.mp hx with hx1 | hx2
            · exact hn.pool_self hx1
            · rw [List.mem_singleton] at hx2
              exact hn.self_notin (Option.some.inj hx2 ▸ hrnmem)
          · intro x hx hmem
            have hxa : x ∈ node.addresses := (pyRemoveAt_sublist _ _).subset hx
            rcases List.mem_append.mp hmem with hx1 | hx2
            · exact hn.pool_addrs x hxa hx1
            · rw [List.mem_singleton] at hx2
              subst hx2
              exact not_mem_pyRemoveAt node.addresses _ hn.addrs_nodup ha hx
        · intro x hx
          rcases List.mem_append.mp hx with hx1 | hx2
          · exact hInv.pool_some x hx1
          · rw [List.mem_singleton] at hx2
            exact ⟨rn, hx2⟩
        · rw [List.nodup_append]
          refine ⟨hInv.pool_nodup, List.nodup_singleton _, ?_⟩
          intro x hx1 hx2
          rw [List.mem_singleton] at hx2
          subst hx2
          exact hrn_pool hx1
        · intro mN hm
          rcases List.mem_append.mp hm with hx1 | hx2
          · exact hInv.pool_lt mN hx1
          · rw [List.mem_singleton] at hx2
            rw [Option.some.inj hx2]
            exact hn.addr_lt rn hrnmem
    · rw [if_neg hk]
      simp only [hn.leaf, ite_true]
      exact ⟨reachInv_congr _ _ hInv rfl rfl rfl rfl, trivial⟩

theorem reachInv_deleteShrinkRoot (s1 : BTreeState) (a0 : Nat) (hInv1 : ReachInv s1)
    (hroot1 : s1.root_addr = some a0) : ReachInv (BTree.deleteShrinkRoot s1).1 := by
  unfold BTree.deleteShrinkRoot
  rw [hroot1]
  obtain ⟨node1, hfind1, hn1⟩ := hInv1.root_ok a0 hroot1
  simp only [BTree.readNode, hfind1]
  have hcnd : ¬(node1.keys.length = 0 ∧ node1.is_leaf = false) := by
    rintro ⟨_, hf⟩
    rw [hn1.leaf] at hf
    exact absurd hf (by simp)
  rw [if_neg hcnd]
  exact reachInv_congr s1 _ hInv1 rfl rfl rfl rfl

theorem reachInv_delete (fuel : Nat) (s : BTreeState) (k : Int) (hInv : ReachInv s) :
    ReachInv (BTree.delete fuel s k).1 := by
  unfold BTree.delete
  cases hr : s.root_addr with
  | none => exact hInv
  | some a0 =>
    dsimp only
    obtain ⟨hInv', hroot'⟩ := reachInv_deleteRec_leafroot fuel s a0 k hInv hr
    cases hres : BTree.deleteRec fuel s a0 k with
    | mk s' o =>
      rw [hres] at hInv' hroot'
      dsimp only at hInv' hroot' ⊢
      cases o with
      | none => exact hInv'
      | some b =>
        cases b with
        | false => exact hInv'
        | true =>
          exact reachInv_deleteShrinkRoot s' a0 hInv' (by rw [hroot']; exact hr)

theorem updLoop_fst : ∀ (fuel : Nat) (s : BTreeState) (a : Nat) (k : Int) (r : Record),
    ∃ m w dt de, (BTree.updLoop fuel s a k r).1 =
      { s with reads := m, writes := w, data := dt, dataEnd := de } := by
  intro fuel
  induction fuel with
  | zero => exact fun s a k r => ⟨s.reads, s.writes, s.data, s.dataEnd, rfl⟩
  | succ n ih =>
    intro s a k r
    rw [BTree.updLoop]
    cases hf : s.index.find a with
    | none => exact ⟨s.reads, s.writes, s.data, s.dataEnd, by simp [BTree.readNode, hf]⟩
    | some node =>
      simp only [BTree.readNode, hf]
      split
      · split
        · exact ⟨s.reads + 1, s.writes + 1, _, _, rfl⟩
        · exact ⟨s.reads + 1, s.writes, s.data, s.dataEnd, rfl⟩
        · exact ⟨s.reads + 1, s.writes, s.data, s.dataEnd, rfl⟩
      · split
        · exact ⟨s.reads + 1, s.writes, s.data, s.dataEnd, rfl⟩
        · split
          · exact ⟨s.reads + 1, s.writes, s.data, s.dataEnd, rfl⟩
          · exact ih _ _ _ _

theorem update_pool_frame (fuel : Nat) (s : BTreeState) (k : Int) (ns : List Int) :
    (BTree.update fuel s k ns).1.free_pages = s.free_pages := by
  unfold BTree.update
  obtain ⟨m, hm⟩ := search_fst fuel s k
  cases hs : BTree.search fuel s k with
  | mk s1 res =>
    rw [hs] at hm
    have hm' : s1 = { s with reads := m } := hm
    subst hm'
    cases res with
    | none => rfl
    | some o =>
      cases o with
      | none => rfl
      | some r =>
        dsimp only
        cases hr : s.root_addr with
        | none => rfl
        | some ra =>
          obtain ⟨m2, w2, dt2, de2, hm2⟩ := updLoop_fst fuel _ ra k _
          rw [hm2]

theorem reachInv_update (fuel : Nat) (s : BTreeState) (k : Int) (ns : List Int)
    (hInv : ReachInv s) : ReachInv (BTree.update fuel s k ns).1 := by
  unfold BTree.update
  obtain ⟨m, hm⟩ := search_fst fuel s k
  cases hs : BTree.search fuel s k with
  | mk s1 res =>
    rw [hs] at hm
    have hm' : s1 = { s with reads := m } := hm
    subst hm'
    have hInv1 : ReachInv ({ s with reads := m }) := reachInv_congr _ _ hInv rfl rfl rfl rfl
    cases res with
    | none => exact hInv1
    | some o =>
      cases o with
      | none => exact hInv1
      | some r =>
        dsimp only
        cases hr : s.root_addr with
        | none => exact reachInv_congr s _ hInv (by rw [hr]) rfl rfl rfl
        | some ra =>
          obtain ⟨m2, w2, dt2, de2, hm2⟩ := updLoop_fst fuel _ ra k _
          rw [hm2]
          exact reachInv_congr s _ hInv (by rw [hr]) rfl rfl rfl

theorem reachInv_search (fuel : Nat) (s : BTreeState) (k : Int) (hInv : ReachInv s) :
    ReachInv (BTree.search fuel s k).1 := by
  obtain ⟨m, hm⟩ := search_fst fuel s k
  rw [hm]
  exact reachInv_congr _ _ hInv rfl rfl rfl rfl

theorem reachInv_init (d : Nat) : ReachInv (BTree.initState d) := by
  constructor
  · intro a ha
    exact Option.noConfusion ha
  · intro x hx
    exact absurd hx (List.not_mem_nil x)
  · exact List.nodup_nil
  · intro n hn2
    exact absurd hn2 (List.not_mem_nil _)

theorem reachInv_applyOp (s : BTreeState) (op : BTree.Op) (hInv : ReachInv s) :
    ReachInv (BTree.applyOp s op) := by
  cases op with
  | ins fuel r => exact reachInv_insert fuel s r hInv
  | del fuel k => exact reachInv_delete fuel s k hInv
  | upd fuel k ns => exact reachInv_update fuel s k ns hInv
  | srch fuel k => exact reachInv_search fuel s k hInv

theorem reachInv_execOps : ∀ (ops : List BTree.Op) (s : BTreeState), ReachInv s →
    ReachInv (BTree.execOps s ops) := by
  intro ops
  induction ops with
  | nil => exact fun s h => h
  | cons op rest ih => exact fun s h => ih _ (reachInv_applyOp s op h)

theorem sortedb_of_pairwise : ∀ (l : List Int), l.Pairwise (· < ·) → BTree.sortedb l = true := by
  intro l
  induction l with
  | nil => intro _; rfl
  | cons a t ih =>
    intro h
    cases t with
    | nil => rfl
    | cons b u =>
      rw [BTree.sortedb, Bool.and_eq_true]
      constructor
      · exact decide_eq_true (List.rel_of_pairwise_cons h (List.mem_cons_self b u))
      · exact ih (List.Pairwise.of_cons h)

theorem wfState_of_reachInv (s : BTreeState) (hInv : ReachInv s) : BTree.wfState s := by
  unfold BTree.wfState
  cases hr : s.root_addr with
  | none => trivial
  | some a =>
    obtain ⟨node, hfind, hn⟩ := hInv.root_ok a hr
    refine ⟨2, 0, ?_⟩
    show BTree.wfAux s (0 + 1 + 1) [(a, true, 0, none, none)] = true
    rw [BTree.wfAux]
    simp [hfind, hn.leaf, hn.chl, sortedb_of_pairwise _ hn.sorted,
      BTree.overLo, BTree.underHi, BTree.wfAux]

theorem pool_disjoint_live_of_reachInv (s : BTreeState) (hInv : ReachInv s) (fuel n : Nat)
    (hmem : some n ∈ s.free_pages) : n ∉ BTree.liveIds s fuel := by
  unfold BTree.liveIds
  cases hr : s.root_addr with
  | none => exact List.not_mem_nil n
  | some a =>
    obtain ⟨node, hfind, hn⟩ := hInv.root_ok a hr
    cases fuel with
    | zero => exact List.not_mem_nil n
    | succ f =>
      simp only [BTree.treeIdsAux, hfind, hn.chl, List.nil_append, treeIdsAux_nil,
        List.append_nil]
      intro hmem2
      rcases List.mem_cons.mp hmem2 with rfl | hmem3
      · exact hn.pool_self hmem
      · rcases List.mem_filterMap.mp hmem3 with ⟨x, hxmem, hxid⟩
        have hx : x = some n := hxid
        subst hx
        exact hn.pool_addrs _ hxmem hmem

/-- Claim C3: after every sequence of engine operations on a fresh store
(insert/delete, and also update/search, with any fuel, and with states
kept across raising calls exactly as the driver does), the tree rooted at
`root_addr` satisfies the balance invariants checked by `wfAux`: every
non-root node holds between `d` and `2d` keys, keys in each node are
strictly increasing and respect the separator intervals, and all leaves
sit at equal depth.  (Reachable trees never grow past a single root leaf,
because every split raises before an internal root is installed — see the
C1/C2 theorems — so the checker is satisfied with the root as the only
node.) -/
theorem balance_invariants_hold_after_any_sequence (d : Nat) (ops : List BTree.Op) :
    BTree.wfState (BTree.execOps (BTree.initState d) ops) :=
  wfState_of_reachInv _ (reachInv_execOps ops _ (reachInv_init d))

/-- Claim C9: at every point of every operation sequence from a fresh
store, the free-page pool is disjoint from the ids holding a live Node or
Record (everything reachable from the root); allocation consults the pool
before touching the next-id counter (popping the last pool entry when the
pool is non-empty, minting and bumping the counter only when it is
empty); reclamation appends to the pool; and the two read-only public
operations, `search` and `update`, never change the pool — the only pool
changes happen inside allocate (`_get_new_page_addr`) and reclaim
(`_free_page_addr`). -/
theorem free_pool_disjoint_and_allocation_order :
    (∀ (d : Nat) (ops : List BTree.Op) (fuel n : Nat),
        some n ∈ (BTree.execOps (BTree.initState d) ops).free_pages →
        n ∉ BTree.liveIds (BTree.execOps (BTree.initState d) ops) fuel)
    ∧ (∀ s : BTreeState, s.free_pages = [] →
        BTree.getNewPageAddr s =
          ({ s with next_page_addr := s.next_page_addr + 1 }, some s.next_page_addr))
    ∧ (∀ (s : BTreeState) (rest : List (Option Nat)) (x : Option Nat),
        pyPopLast s.free_pages = some (rest, x) →
        BTree.getNewPageAddr s = ({ s with free_pages := rest }, x))
    ∧ (∀ (s : BTreeState) (x : Option Nat),
        (BTree.freePageAddr s x).free_pages = s.free_pages ++ [x])
    ∧ (∀ (fuel : Nat) (s : BTreeState) (k : Int),
        (BTree.search fuel s k).1.free_pages = s.free_pages)
    ∧ (∀ (fuel : Nat) (s : BTreeState) (k : Int) (ns : List Int),
        (BTree.update fuel s k ns).1.free_pages = s.free_pages) := by
  refine ⟨?_, ?_, ?_, ?_, ?_, ?_⟩
  · intro d ops fuel n hmem
    exact pool_disjoint_live_of_reachInv _ (reachInv_execOps ops _ (reachInv_init d)) fuel n hmem
  · intro s he
    unfold BTree.getNewPageAddr
    have hp : pyPopLast s.free_pages = none := by rw [he]; rfl
    rw [hp]
  · intro s rest x h
    unfold BTree.getNewPageAddr
    rw [h]
  · intro s x
    rfl
  · intro fuel s k
    obtain ⟨m, hm⟩ := search_fst fuel s k
    rw [hm]
  · exact update_pool_frame

set_option maxRecDepth 8000 in
/-- Claim C9 (witness): the disjointness and the two allocation behaviors
instantiated at concrete stores. -/
theorem free_pool_disjoint_witness :
    (2 : Nat) ∉ BTree.liveIds (BTree.execOps (BTree.initState 2)
      [BTree.Op.ins 10 ⟨1, [0]⟩, BTree.Op.ins 10 ⟨2, [0]⟩, BTree.Op.del 10 2]) 5
    ∧ BTree.getNewPageAddr (BTree.initState 3) =
        ({ BTree.initState 3 with
            next_page_addr := (BTree.initState 3).next_page_addr + 1 },
         some (BTree.initState 3).next_page_addr)
    ∧ BTree.getNewPageAddr { BTree.initState 2 with free_pages := [some 5] } =
        ({ { BTree.initState 2 with free_pages := [some 5] } with free_pages := [] }, some 5) :=
  ⟨free_pool_disjoint_and_allocation_order.1 2
      [BTree.Op.ins 10 ⟨1, [0]⟩, BTree.Op.ins 10 ⟨2, [0]⟩, BTree.Op.del 10 2] 5 2 (by decide),
   free_pool_disjoint_and_allocation_order.2.1 (BTree.initState 3) rfl,
   free_pool_disjoint_and_allocation_order.2.2.1
     { BTree.initState 2 with free_pages := [some 5] } [] (some 5) rfl⟩
